import Mathlib

/-!
Verification of the KVideo-config health-check scripts.

The repository contains three JavaScript variants of the same pipeline:
`src/check_api.js` (called `check` below), `src/unnamed/part_000` (`p0`)
and `src/unnamed/part_001` (`p1`).  Strings are modelled as `List Char`
(`Str`); machine text such as config names, API urls and report glyphs
are ordinary character lists.  Each definition is a direct transcription
of the corresponding JavaScript source.
-/

set_option maxRecDepth 4000

abbrev Str : Type := List Char

/-! ## Shared constants (`check_api.js` lines 8-15, `part_000` lines 10-17,
`part_001` lines 13-14) -/

def MAX_DAYS : Nat := 30
def WARN_STREAK : Nat := 3
def MAX_RETRY : Nat := 3
def MAX_RETRY_p1 : Nat := 2

/-! ## Data model of daily results and history

`check_api.js` line 98 builds `{ name, api, success, searchStatus }`; line 102
pushes `{ date, results }` onto `history`.  The search-status field holds the
literal glyph strings of the script ("✅", "❌", "无结果", "不匹配", "禁用", "-"). -/

structure ResultRec where
  name : Str
  api : Str
  success : Bool
  searchStatus : Str
deriving Repr, DecidableEq

structure DailyRecord where
  date : Str
  results : List ResultRec
deriving Repr, DecidableEq

abbrev History : Type := List DailyRecord

/-- Glyph used for a successful search test. -/
def ssOK : Str := "✅".data
/-- Glyph used when a network stage failed outright. -/
def ssBad : Str := "❌".data
/-- Glyph used when the search returned an empty list. -/
def ssNoResult : Str := "无结果".data
/-- Glyph used when the serialized list does not contain the keyword. -/
def ssMismatch : Str := "不匹配".data
/-- Glyph used for a disabled endpoint (spec status DISABLED). -/
def ssDisabled : Str := "禁用".data
/-- Placeholder glyph used when the search test is skipped. -/
def ssDash : Str := "-".data

/-- `day.results.find(x => x.api === api)` (`check_api.js` lines 111/116,
`part_000` line 100). -/
def findRec (day : DailyRecord) (api : Str) : Option ResultRec :=
  day.results.find? (fun r => r.api = api)

/-! ## History append (`check_api.js` lines 102-103, `part_000` lines 92-93) -/

/-- `history.push(rec); if (history.length > MAX_DAYS) history = history.slice(-MAX_DAYS)`
(`check_api.js` lines 102-103): append, then keep only the last `MAX_DAYS` records. -/
def appendHist_check (h : History) (rec : DailyRecord) : History :=
  if MAX_DAYS < (h ++ [rec]).length then
    (h ++ [rec]).drop ((h ++ [rec]).length - MAX_DAYS)
  else h ++ [rec]

/-- `history.push(rec); if (history.length > MAX_DAYS) history.shift()`
(`part_000` lines 92-93): append, then drop a single oldest record on overflow. -/
def appendHist_p0 (h : History) (rec : DailyRecord) : History :=
  if MAX_DAYS < (h ++ [rec]).length then (h ++ [rec]).drop 1 else h ++ [rec]

/-! ## Streak (`check_api.js` lines 115-119, `part_000` lines 98-103)

Both loops walk `history` from the most recent record backwards.  The `check`
variant stops when `!rec || rec.success`; the `p0` variant stops only when
`r && r.success`.  We transcribe the walks as recursion over the reversed
history. -/

/-- Backward walk of `check_api.js` lines 115-119: stop at a record that is
missing for this api or successful, otherwise count it. -/
def streakWalk_check (api : Str) : List DailyRecord → Nat
  | [] => 0
  | day :: rest =>
    match findRec day api with
    | none => 0
    | some r => if r.success then 0 else streakWalk_check api rest + 1

/-- `streak` of `check_api.js`: the walk applied most-recent-first. -/
def streak_check (h : History) (api : Str) : Nat :=
  streakWalk_check api h.reverse

/-- Backward walk of `part_000` lines 99-103: stop only at a present successful
record; a missing record counts toward the streak. -/
def streakWalk_p0 (api : Str) : List DailyRecord → Nat
  | [] => 0
  | day :: rest =>
    match findRec day api with
    | none => streakWalk_p0 api rest + 1
    | some r => if r.success then 0 else streakWalk_p0 api rest + 1

/-- `streak` of `part_000`. -/
def streak_p0 (h : History) (api : Str) : Nat :=
  streakWalk_p0 api h.reverse

/-- The streak contract as the spec words it: count consecutive most-recent
records in which the endpoint has no recorded outcome or a failing outcome,
stopping only at the first successful outcome. -/
def streakSpec (h : History) (api : Str) : Nat :=
  (h.reverse.takeWhile (fun day =>
    match findRec day api with
    | none => true
    | some r => !r.success)).length

/-! ## In-window counts (`check_api.js` lines 110-113) -/

/-- Contribution of one day to the `fail` counter: counted only when a record
for the api is present and unsuccessful. -/
def failOf (day : DailyRecord) (api : Str) : Nat :=
  match findRec day api with
  | some r => if r.success then 0 else 1
  | none => 0

/-- Contribution of one day to the `ok` counter. -/
def okOf (day : DailyRecord) (api : Str) : Nat :=
  match findRec day api with
  | some r => if r.success then 1 else 0
  | none => 0

/-- `history.forEach(day => { const rec = find; if (rec) rec.success ? ok++ : fail++ })`,
fail side (`check_api.js` lines 110-113). -/
def failCount (h : History) (api : Str) : Nat :=
  (h.map (failOf · api)).sum

/-- Same loop, ok side. -/
def okCount (h : History) (api : Str) : Nat :=
  (h.map (okOf · api)).sum

/-! ## Classifier (`check_api.js` lines 128-134, `part_000` lines 104-110) -/

inductive Status where
  | disabled
  | critical
  | healthy
  | down
deriving Repr, DecidableEq

/-- `latest?.success` where `latest` may be absent. -/
def latestSucc : Option ResultRec → Bool
  | some r => r.success
  | none => false

/-- `check_api.js` lines 131-133: status starts at "❌", then
`if (disabled) 🚫 else if (streak >= WARN_STREAK) 🚨 else if (latest?.success) ✅`. -/
def classify_check (disabled : Bool) (streak : Nat) (latest : Option ResultRec) : Status :=
  if disabled then .disabled
  else if WARN_STREAK ≤ streak then .critical
  else if latestSucc latest then .healthy
  else .down

/-- `part_000` lines 105-108: status starts at "✅", then
`if (disabled) 🚫 else if (streak >= WARN_STREAK) 🚨 else if (!latest?.success) ❌`. -/
def classify_p0 (disabled : Bool) (streak : Nat) (latest : Option ResultRec) : Status :=
  let s0 : Status := .healthy
  if disabled then .disabled
  else if WARN_STREAK ≤ streak then .critical
  else if !latestSucc latest then .down
  else s0

/-- The classifier contract exactly as the spec words it: DISABLED overrides
everything, then CRITICAL on `streak >= WARN_STREAK`, then HEALTHY iff the
latest outcome is reachable, else DOWN. -/
def classifySpec (disabled : Bool) (streak : Nat) (latest : Option ResultRec) : Status :=
  if disabled then .disabled
  else if WARN_STREAK ≤ streak then .critical
  else if latestSucc latest then .healthy
  else .down

/-! ## Theorems for C5 -/

/-- Claim C5: both status assignments implement the spec's strict priority:
DISABLED when the endpoint is disabled, otherwise CRITICAL when
`streak >= WARN_STREAK` regardless of today's result, otherwise HEALTHY when
the latest outcome succeeded, otherwise DOWN. -/
theorem classify_correct (d : Bool) (s : Nat) (l : Option ResultRec) :
    classify_check d s l = classifySpec d s l ∧
    classify_p0 d s l = classifySpec d s l := by
  refine ⟨rfl, ?_⟩
  unfold classify_p0 classifySpec
  by_cases hd : d = true <;> by_cases hs : WARN_STREAK ≤ s <;>
    cases hl : latestSucc l <;> simp [hd, hs, hl]

/-! ## Theorems for C1 -/

/-- Walk lemma: the `part_000` walk is exactly the takeWhile count in which a
missing record counts toward the streak. -/
theorem streakWalk_p0_eq (api : Str) (l : List DailyRecord) :
    streakWalk_p0 api l =
      (l.takeWhile (fun day =>
        match findRec day api with
        | none => true
        | some r => !r.success)).length := by
  induction l with
  | nil => rfl
  | cons day rest ih =>
    unfold streakWalk_p0
    rcases hf : findRec day api with _ | r
    · simp [List.takeWhile_cons, hf, ih]
    · cases hs : r.success <;> simp [List.takeWhile_cons, hf, hs, ih]

/-- Walk lemma: the `check_api.js` walk counts only while a present failing
record is found; a missing record terminates the walk. -/
theorem streakWalk_check_eq (api : Str) (l : List DailyRecord) :
    streakWalk_check api l =
      (l.takeWhile (fun day =>
        match findRec day api with
        | none => false
        | some r => !r.success)).length := by
  induction l with
  | nil => rfl
  | cons day rest ih =>
    unfold streakWalk_check
    rcases hf : findRec day api with _ | r
    · simp [List.takeWhile_cons, hf]
    · cases hs : r.success <;> simp [List.takeWhile_cons, hf, hs, ih]

/-- Counterexample to claim C1 as stated: in `check_api.js` a record carrying
no outcome for the endpoint terminates the streak instead of counting toward
it.  On a one-day history whose record set is empty the claimed contract gives
streak 1, but `check_api.js` computes 0. -/
theorem c1_counterexample :
    streak_check [⟨"d".data, []⟩] "a".data = 0 ∧
    streakSpec [⟨"d".data, []⟩] "a".data = 1 := by
  constructor <;> rfl

/-- Claim C1 as amended: `part_000`'s streak realises the claimed contract
(missing records count toward the streak, only a successful outcome stops the
count), while `check_api.js`'s streak stops at the first record that is either
missing for the endpoint or successful. -/
theorem c1_amended (h : History) (api : Str) :
    streak_p0 h api = streakSpec h api ∧
    streak_check h api =
      (h.reverse.takeWhile (fun day =>
        match findRec day api with
        | none => false
        | some r => !r.success)).length := by
  exact ⟨streakWalk_p0_eq api h.reverse, streakWalk_check_eq api h.reverse⟩

/-! ## Theorems for C4 -/

/-- Counterexample to claim C4 as stated: `part_000`'s append drops only one
record, so on a (hand-edited or foreign) history already longer than
`MAX_DAYS` the resulting length still exceeds `MAX_DAYS`. -/
theorem c4_counterexample :
    MAX_DAYS <
      (appendHist_p0 (List.replicate 31 ⟨"x".data, []⟩) ⟨"y".data, []⟩).length := by
  decide

/-- Day records used by concrete witnesses. -/
def dayA : DailyRecord := ⟨"a".data, []⟩

/-- Second day record used by concrete witnesses. -/
def dayB : DailyRecord := ⟨"b".data, []⟩

/-- Claim C4 as amended: on any history already satisfying the window
invariant `length ≤ MAX_DAYS` (the only histories either script produces),
both appends put the record at the end and drop the oldest record(s) down to
`MAX_DAYS`, so the bound holds for both variants; `check_api.js` enforces the
bound for inputs of any length, `part_000` drops at most one record per run. -/
theorem c4_amended (h : History) (rec : DailyRecord) (hlen : h.length ≤ MAX_DAYS) :
    appendHist_check h rec = (h ++ [rec]).drop (h.length + 1 - MAX_DAYS) ∧
    (appendHist_check h rec).length = min (h.length + 1) MAX_DAYS ∧
    appendHist_p0 h rec = appendHist_check h rec ∧
    (appendHist_p0 h rec).length ≤ MAX_DAYS := by
  have hl : (h ++ [rec]).length = h.length + 1 := by simp
  unfold appendHist_check appendHist_p0
  rw [hl]
  by_cases hc : MAX_DAYS < h.length + 1
  · have hd1 : h.length + 1 - MAX_DAYS = 1 := by omega
    rw [if_pos hc, if_pos hc, hd1]
    refine ⟨rfl, ?_, rfl, ?_⟩
    · rw [List.length_drop, hl]; omega
    · rw [List.length_drop, hl]; omega
  · have hd0 : h.length + 1 - MAX_DAYS = 0 := by omega
    rw [if_neg hc, if_neg hc, hd0, List.drop_zero]
    exact ⟨rfl, by rw [hl]; omega, rfl, by rw [hl]; omega⟩

/-- Witness for `c4_amended` at a concrete history of length 1. -/
theorem c4_amended_witness :
    appendHist_check [dayA] dayB = ([dayA] ++ [dayB]).drop ([dayA].length + 1 - MAX_DAYS) ∧
    (appendHist_check [dayA] dayB).length = min ([dayA].length + 1) MAX_DAYS ∧
    appendHist_p0 [dayA] dayB = appendHist_check [dayA] dayB ∧
    (appendHist_p0 [dayA] dayB).length ≤ MAX_DAYS :=
  c4_amended [dayA] dayB (by decide)

/-! ## JSON values

`res.data` of an axios response and the persisted history block are JSON
values: null, booleans, numbers, strings, arrays and objects.  A number is
carried with its exact decimal value as a rational; the values this system
itself serializes contain no numbers, and no behaviour here depends on the
double rounding `JSON.parse` would apply. -/

inductive Json where
  | null
  | bool (b : Bool)
  | num (q : Rat)
  | str (s : Str)
  | arr (elems : List Json)
  | obj (fields : List (Str × Json))
deriving Repr

/-- JavaScript truthiness of a JSON value. -/
def jsTruthy : Json → Bool
  | .null => false
  | .bool b => b
  | .num q => decide (q ≠ 0)
  | .str s => !s.isEmpty
  | .arr _ => true
  | .obj _ => true

/-- Property access `v[k]`: defined members of plain objects only; on every
other JSON value the access yields `undefined`, modelled as `none`. -/
def jsGet : Json → Str → Option Json
  | .obj kvs, k => (kvs.find? (fun p => p.1 = k)).map (·.2)
  | _, _ => none

/-- `v.length` as JavaScript sees it: a number for arrays and strings,
`undefined` (`none`) for everything else. -/
def jsLenStrict : Json → Option Nat
  | .arr xs => some xs.length
  | .str s => some s.length
  | _ => none

/-- `v.length` coerced through `!list.length` style truthiness tests:
`undefined` counts as 0. -/
def jsLen (v : Json) : Nat := (jsLenStrict v).getD 0

/-- `v[0]`: first element of an array, first character of a string (as a
one-character string), `undefined` (`none`) otherwise. -/
def jsFirst : Json → Option Json
  | .arr (x :: _) => some x
  | .str (c :: _) => some (.str [c])
  | _ => none

/-- `typeof v === "object"` (true for objects, arrays and null). -/
def isObjType : Json → Bool
  | .obj _ => true
  | .arr _ => true
  | .null => true
  | _ => false

/-! ## JSON.stringify, compact form (used by `check_api.js` line 67 through
`JSON.stringify(list).includes(keyword)`) -/

/-- Lower-case hex digit, as emitted by `JSON.stringify` control escapes. -/
def hexDigit (n : Nat) : Char :=
  if n < 10 then Char.ofNat (48 + n) else Char.ofNat (87 + n)

/-- One character of a JSON string literal, escaped the way `JSON.stringify`
escapes it. -/
def escChar (c : Char) : Str :=
  if c = '"' then ['\\', '"']
  else if c = '\\' then ['\\', '\\']
  else if c = '\n' then ['\\', 'n']
  else if c = '\t' then ['\\', 't']
  else if c = '\r' then ['\\', 'r']
  else if c = Char.ofNat 8 then ['\\', 'b']
  else if c = Char.ofNat 12 then ['\\', 'f']
  else if c.toNat < 32 then
    ['\\', 'u', '0', '0', hexDigit (c.toNat / 16), hexDigit (c.toNat % 16)]
  else [c]

/-- Body of a JSON string literal. -/
def escStr : Str → Str
  | [] => []
  | c :: cs => escChar c ++ escStr cs

/-- A quoted JSON string literal. -/
def qstr (s : Str) : Str := '"' :: escStr s ++ ['"']

/-- Digits after the decimal point of `r / d` (with `r < d`), fuelled; the
expansion terminates within `d` steps for every denominator of the form
`2^a * 5^b`, the only denominators a parsed JSON number can have. -/
def fracDigits : Nat → Nat → Nat → Str
  | 0, _, _ => []
  | fuel + 1, r, d =>
    if r = 0 then []
    else Char.ofNat (48 + r * 10 / d) :: fracDigits fuel (r * 10 % d) d

/-- Decimal rendering of a number, as `JSON.stringify` prints the numbers
that occur here (integral values without a point, fractional values with
their terminating decimal expansion). -/
def numToStr (q : Rat) : Str :=
  let n := q.num.natAbs
  let fr := fracDigits q.den (n % q.den) q.den
  (if q.num < 0 then ['-'] else []) ++ Nat.toDigits 10 (n / q.den) ++
    (if fr.isEmpty then [] else '.' :: fr)

mutual
/-- `JSON.stringify(v)` without indentation. -/
def printC : Json → Str
  | .null => "null".data
  | .bool true => "true".data
  | .bool false => "false".data
  | .num q => numToStr q
  | .str s => qstr s
  | .arr xs => '[' :: printCList xs ++ [']']
  | .obj kvs => '{' :: printCFields kvs ++ ['}']
/-- Comma-separated compact serialization of array elements. -/
def printCList : List Json → Str
  | [] => []
  | [x] => printC x
  | x :: y :: ys => printC x ++ ',' :: printCList (y :: ys)
/-- Comma-separated compact serialization of object fields. -/
def printCFields : List (Str × Json) → Str
  | [] => []
  | [(k, v)] => qstr k ++ ':' :: printC v
  | (k, v) :: q :: qs => qstr k ++ ':' :: printC v ++ ',' :: printCFields (q :: qs)
end

/-- `s.startsWith(p)` on character lists. -/
def strStarts : Str → Str → Bool
  | [], _ => true
  | _ :: _, [] => false
  | a :: ps, b :: ss => a == b && strStarts ps ss

/-- `s.includes(needle)` on character lists. -/
def strHas (needle : Str) : Str → Bool
  | [] => strStarts needle []
  | c :: cs => strStarts needle (c :: cs) || strHas needle cs

/-! ## Network model

A probe's network activity is modelled against an oracle `env : Nat → NetResp`
giving the result of the n-th network call the probe performs: either a
rejection (timeout / connection failure / non-2xx, carrying the error message)
or a resolved response with HTTP status and parsed body.  Every probe function
returns its outcome together with the number of network calls performed. -/

inductive NetResp where
  | err (msg : Str)
  | ok (status : Nat) (data : Json)

/-- A config entry after the `apiEntries` mapping (`check_api.js` lines 25-30):
`disabled` is `enabled === false`, so the raw flag is kept here. -/
structure Endpoint where
  name : Str
  api : Str
  enabled : Bool
deriving Repr, DecidableEq

def ENABLE_SEARCH_TEST : Bool := true

/-! ## Probe of `check_api.js` (lines 47-57, 59-73, 94-99) -/

/-- `safeGet` retry loop (`check_api.js` lines 47-57): up to `k` attempts
starting at call index `i`; a resolved response ends the loop with
`status === 200`, a rejection retries until attempts are exhausted. -/
def safeGetFrom (env : Nat → NetResp) (i : Nat) : Nat → Bool × Nat
  | 0 => (false, 0)
  | k + 1 =>
    match env i with
    | .ok status _ => (status == 200, 1)
    | .err _ =>
      let p := safeGetFrom env (i + 1) k
      (p.1, p.2 + 1)

/-- `testSearch` of `check_api.js` (lines 59-73): on a resolved response,
classify; on a rejection, retry; exhausted retries give "❌". -/
def testSearchFrom_check (kw : Str) (env : Nat → NetResp) (i : Nat) : Nat → Str × Nat
  | 0 => (ssBad, 0)
  | k + 1 =>
    match env i with
    | .err _ =>
      let p := testSearchFrom_check kw env (i + 1) k
      (p.1, p.2 + 1)
    | .ok status data =>
      if status ≠ 200 ∨ ¬jsTruthy data ∨ ¬isObjType data then (ssBad, 1)
      else
        let list :=
          match jsGet data "list".data with
          | some v => if jsTruthy v then v else Json.arr []
          | none => Json.arr []
        if jsLen list = 0 then (ssNoResult, 1)
        else if strHas kw (printC list) then (ssOK, 1)
        else (ssMismatch, 1)

/-- One probe task of `check_api.js` (lines 94-99): a disabled endpoint
returns at once with "禁用" and no network call; otherwise `safeGet` runs and
then — search testing being enabled — `testSearch` runs unconditionally, even
when connectivity failed. -/
def task_check (kw : Str) (e : Endpoint) (env : Nat → NetResp) : ResultRec × Nat :=
  if e.enabled = false then
    ({name := e.name, api := e.api, success := false, searchStatus := ssDisabled}, 0)
  else
    let pg := safeGetFrom env 0 MAX_RETRY
    let ps :=
      if ENABLE_SEARCH_TEST then testSearchFrom_check kw env pg.2 MAX_RETRY
      else (ssDash, 0)
    ({name := e.name, api := e.api, success := pg.1, searchStatus := ps.1}, pg.2 + ps.2)

/-! ## Probe of `part_000` (lines 45-53, 55-65, 84-89) -/

/-- Truthiness test `!res.data.list` on the looked-up member: an absent member
(`undefined`) or a falsy value. -/
def listFalsy : Option Json → Bool
  | some v => !jsTruthy v
  | none => true

/-- `testSearch` of `part_000` (lines 55-65): "❌" unless status 200 with a
truthy body carrying a truthy `list`; then "✅" iff the list is non-empty. -/
def testSearchFrom_p0 (env : Nat → NetResp) (i : Nat) : Nat → Str × Nat
  | 0 => (ssBad, 0)
  | k + 1 =>
    match env i with
    | .err _ =>
      let p := testSearchFrom_p0 env (i + 1) k
      (p.1, p.2 + 1)
    | .ok status data =>
      let lst := jsGet data "list".data
      if status ≠ 200 ∨ ¬jsTruthy data ∨ listFalsy lst then (ssBad, 1)
      else if jsLen (lst.getD .null) ≠ 0 then (ssOK, 1)
      else (ssNoResult, 1)

/-- Result record of `part_000`'s tasks (lines 85-88): `{ api, success,
searchStatus }`, without a `name` field. -/
structure ResultP0 where
  api : Str
  success : Bool
  searchStatus : Str
deriving Repr, DecidableEq

/-- One probe task of `part_000` (lines 84-89): like `check_api.js` but the
search test runs only when connectivity succeeded (`ok && ENABLE_SEARCH_TEST`). -/
def task_p0 (e : Endpoint) (env : Nat → NetResp) : ResultP0 × Nat :=
  if e.enabled = false then
    ({api := e.api, success := false, searchStatus := ssDisabled}, 0)
  else
    let pg := safeGetFrom env 0 MAX_RETRY
    let ps :=
      if pg.1 && ENABLE_SEARCH_TEST then testSearchFrom_p0 env pg.2 MAX_RETRY
      else (ssDash, 0)
    ({api := e.api, success := pg.1, searchStatus := ps.1}, pg.2 + ps.2)

/-! ## Probe of `part_001` (`testSource`, lines 31-66)

`testSource` never consults the `enabled` flag of the item it probes.  Each
attempt issues a connectivity GET and, if that resolved with status 200, a
search GET; the body checks assign `errorReason` and a truthy `errorReason`
is thrown.  `errorReason` is declared outside the retry loop, so a reason
caught in an earlier attempt persists into later ones. -/

def POLLUTED_KEYWORDS : List Str :=
  ["广告".data, "博彩".data, "注册".data, "联系Q".data, "维护".data, "加群".data]

def reasonNormal : Str := "正常".data
def reasonMalformed : Str := "返回格式非法".data
def reasonNoResult : Str := "搜索无结果".data
def reasonPolluted : Str := "检测到广告污染源".data

/-- Message of the `Error` thrown on a non-200 ping (`part_001` line 39). -/
def httpMsg (status : Nat) : Str := "HTTP_".data ++ Nat.toDigits 10 status

/-- Message of the `TypeError` raised when `res.data.list[0]` is `undefined`
or its `vod_name` is a truthy non-string (so `.includes` is not callable);
the exact runtime text is abstracted as a constant. -/
def typeErrMsg : Str := "TypeError".data

/-- `res.data.list[0].vod_name || ""` as a string: an absent or falsy
`vod_name` coerces to "", a truthy non-string makes the later `.includes`
call raise (`none`). -/
def sampleNameOf (item : Json) : Option Str :=
  match jsGet item "vod_name".data with
  | none => some []
  | some v => if jsTruthy v then (match v with | .str s => some s | _ => none) else some []

/-- Result of one attempt body of `testSource` after both GETs resolved. -/
inductive AttemptRes where
  | success
  | caught (msg : Str)
deriving Repr, DecidableEq

/-- The validation part of `testSource`'s try block (`part_001` lines 45-58):
malformed body, empty list, pollution of the first result's display name, a
`TypeError` on an inaccessible first name, or a stale `errorReason` from an
earlier attempt all throw; only a clean pass with an empty `errorReason`
returns success. -/
def p1Validate (errR : Str) (data : Json) : AttemptRes :=
  if ¬jsTruthy data then .caught reasonMalformed
  else
    match jsGet data "list".data with
    | none => .caught reasonMalformed
    | some lst =>
      if ¬jsTruthy lst then .caught reasonMalformed
      else if jsLenStrict lst = some 0 then .caught reasonNoResult
      else
        match jsFirst lst with
        | none => .caught typeErrMsg
        | some item =>
          match sampleNameOf item with
          | none => .caught typeErrMsg
          | some nm =>
            if POLLUTED_KEYWORDS.any (fun k => strHas k nm) then .caught reasonPolluted
            else if errR = [] then .success
            else .caught errR

/-- Outcome record of `testSource`: `{ success, reason }`. -/
structure OutcomeP1 where
  success : Bool
  reason : Str
deriving Repr, DecidableEq

/-- The retry loop of `testSource` (`part_001` lines 35-65): `i` is the index
of the next network call, `errR` the current `errorReason`, the last argument
the remaining attempts.  Exhausting attempts returns
`{ success: false, reason: errorReason }`. -/
def testSourceFrom (env : Nat → NetResp) : Nat → Str → Nat → OutcomeP1 × Nat
  | _, errR, 0 => ({success := false, reason := errR}, 0)
  | i, errR, k + 1 =>
    match env i with
    | .err msg =>
      let p := testSourceFrom env (i + 1) msg k
      (p.1, p.2 + 1)
    | .ok st _ =>
      if st ≠ 200 then
        let p := testSourceFrom env (i + 1) (httpMsg st) k
        (p.1, p.2 + 1)
      else
        match env (i + 1) with
        | .err msg =>
          let p := testSourceFrom env (i + 2) msg k
          (p.1, p.2 + 2)
        | .ok _ data2 =>
          match p1Validate errR data2 with
          | .success => ({success := true, reason := reasonNormal}, 2)
          | .caught m =>
            let p := testSourceFrom env (i + 2) m k
            (p.1, p.2 + 2)

set_option linter.unusedVariables false in
/-- `testSource(item)` (`part_001` lines 31-66): the enabled flag of `item`
plays no role. -/
def testSource (item : Endpoint) (env : Nat → NetResp) : OutcomeP1 × Nat :=
  testSourceFrom env 0 [] MAX_RETRY_p1

/-! ## Concrete inputs used by witnesses and counterexamples -/

def kw0 : Str := "斗罗大陆".data

/-- A disabled config entry. -/
def epDis : Endpoint := ⟨"黑木耳".data, "https://example.com/api.php/provide/vod".data, false⟩

/-- An enabled config entry. -/
def epEn : Endpoint := ⟨"黑木耳".data, "https://example.com/api.php/provide/vod".data, true⟩

/-- An environment in which every network call is rejected. -/
def envErr : Nat → NetResp := fun _ => .err "ECONNRESET".data

/-- A search result item with a clean display name. -/
def cleanItem : Json := .obj [("vod_name".data, .str "斗罗大陆第一季".data)]

/-- A search result item whose display name contains the pollution marker "广告". -/
def dirtyItem : Json := .obj [("vod_name".data, .str "广告斗罗大陆".data)]

/-- A search body whose only item is clean. -/
def dataCleanOnly : Json := .obj [("list".data, .arr [cleanItem])]

/-- A search body whose first item is clean but whose second item is polluted. -/
def dataCleanFirst : Json := .obj [("list".data, .arr [cleanItem, dirtyItem])]

/-- A search body whose first item is polluted. -/
def dataDirtyFirst : Json := .obj [("list".data, .arr [dirtyItem])]

/-- Environment alternating a resolved ping and a resolved search body `d`. -/
def envPing (d : Json) : Nat → NetResp := fun i => if i % 2 = 0 then .ok 200 .null else .ok 200 d

/-! ## Theorems for C2 -/

/-- Counterexample to claim C2 as stated: `part_001`'s `testSource` ignores
`enabled`, probes the disabled endpoint over the network (2 calls here) and
can even report success. -/
theorem c2_counterexample :
    epDis.enabled = false ∧
    testSource epDis (envPing dataCleanOnly) =
      ({success := true, reason := reasonNormal}, 2) := by
  exact ⟨rfl, rfl⟩

/-- Claim C2 as amended: in `check_api.js` and `part_000` a disabled endpoint
short-circuits to `searchStatus = "禁用"` (DISABLED), `success = false` and
zero network calls; `part_001`'s `testSource` however ignores the flag and
probes the endpoint normally. -/
theorem c2_amended (kw : Str) (e : Endpoint) (env : Nat → NetResp) (hd : e.enabled = false) :
    task_check kw e env =
      ({name := e.name, api := e.api, success := false, searchStatus := ssDisabled}, 0) ∧
    task_p0 e env = ({api := e.api, success := false, searchStatus := ssDisabled}, 0) := by
  unfold task_check task_p0
  simp [hd]

/-- Witness for `c2_amended` on a concrete disabled endpoint. -/
theorem c2_amended_witness :
    task_check kw0 epDis envErr =
      ({name := epDis.name, api := epDis.api, success := false, searchStatus := ssDisabled}, 0) ∧
    task_p0 epDis envErr = ({api := epDis.api, success := false, searchStatus := ssDisabled}, 0) :=
  c2_amended kw0 epDis envErr rfl

/-! ## Theorems for C3 -/

/-- All-rejection run of `safeGet`: it returns false after exactly `k` calls. -/
theorem safeGetFrom_allErr (env : Nat → NetResp) (m : Nat → Str)
    (henv : ∀ i, env i = .err (m i)) :
    ∀ k i, safeGetFrom env i k = (false, k) := by
  intro k
  induction k with
  | zero => intro i; rfl
  | succ k ih =>
    intro i
    unfold safeGetFrom
    rw [henv i, ih (i + 1)]

/-- All-rejection run of `check_api.js`'s `testSearch`: "❌" after `k` calls. -/
theorem testSearchFrom_check_allErr (kw : Str) (env : Nat → NetResp) (m : Nat → Str)
    (henv : ∀ i, env i = .err (m i)) :
    ∀ k i, testSearchFrom_check kw env i k = (ssBad, k) := by
  intro k
  induction k with
  | zero => intro i; rfl
  | succ k ih =>
    intro i
    unfold testSearchFrom_check
    rw [henv i, ih (i + 1)]

/-- All-rejection run of `testSource`'s loop: failure with the last error
message after exactly `k + 1` calls. -/
theorem testSourceFrom_allErr (env : Nat → NetResp) (m : Nat → Str)
    (henv : ∀ i, env i = .err (m i)) :
    ∀ k i errR, testSourceFrom env i errR (k + 1) =
      ({success := false, reason := m (i + k)}, k + 1) := by
  intro k
  induction k with
  | zero =>
    intro i errR
    unfold testSourceFrom
    rw [henv i]
    rfl
  | succ k ih =>
    intro i errR
    conv_lhs => unfold testSourceFrom
    rw [henv i]
    simp only
    rw [ih (i + 1) (m i)]
    have hx : i + 1 + k = i + (k + 1) := by omega
    rw [hx]

/-- Counterexample to claim C3 as stated: with every network attempt failing,
`check_api.js` still runs the search test after connectivity failed, so an
enabled endpoint consumes 6 network attempts, not `MAX_RETRY = 3`. -/
theorem c3_counterexample :
    (task_check kw0 epEn envErr).1.success = false ∧
    (task_check kw0 epEn envErr).2 = 6 ∧ MAX_RETRY = 3 := by
  refine ⟨rfl, rfl, rfl⟩

/-- Claim C3 as amended: when every attempt is rejected, all three probes
report failure; the attempt count is `2 * MAX_RETRY` in `check_api.js`
(connectivity retries plus unconditional search retries), exactly `MAX_RETRY`
in `part_000` (search skipped on connectivity failure), and exactly its
`MAX_RETRY` (2) in `part_001`. -/
theorem c3_amended (kw : Str) (e : Endpoint) (m : Nat → Str) (env : Nat → NetResp)
    (he : e.enabled = true) (henv : ∀ i, env i = .err (m i)) :
    (task_check kw e env).1.success = false ∧
    (task_check kw e env).2 = 2 * MAX_RETRY ∧
    (task_p0 e env).1.success = false ∧
    (task_p0 e env).2 = MAX_RETRY ∧
    (testSource e env).1.success = false ∧
    (testSource e env).2 = MAX_RETRY_p1 := by
  have hs := safeGetFrom_allErr env m henv
  have ht := testSearchFrom_check_allErr kw env m henv
  have hp1 : testSourceFrom env 0 [] 2 =
      ({success := false, reason := m 1}, 2) :=
    testSourceFrom_allErr env m henv 1 0 []
  unfold task_check task_p0 testSource
  simp [he, hs, ht, hp1, ENABLE_SEARCH_TEST, MAX_RETRY, MAX_RETRY_p1]

/-- Witness for `c3_amended` on a concrete enabled endpoint with every call
rejected. -/
theorem c3_amended_witness :
    (task_check kw0 epEn envErr).1.success = false ∧
    (task_check kw0 epEn envErr).2 = 2 * MAX_RETRY ∧
    (task_p0 epEn envErr).1.success = false ∧
    (task_p0 epEn envErr).2 = MAX_RETRY ∧
    (testSource epEn envErr).1.success = false ∧
    (testSource epEn envErr).2 = MAX_RETRY_p1 :=
  c3_amended kw0 epEn (fun _ => "ECONNRESET".data) envErr rfl (fun _ => rfl)

/-! ## Theorems for C6 -/

/-- The shape actually tested by `part_001` lines 50-54: the body carries a
truthy list of nonzero length whose FIRST item's display name contains a
configured pollution marker. -/
def firstPolluted (d : Json) : Bool :=
  jsTruthy d &&
    match jsGet d "list".data with
    | none => false
    | some lst =>
      jsTruthy lst && !(jsLenStrict lst == some 0) &&
        match jsFirst lst with
        | none => false
        | some item =>
          match sampleNameOf item with
          | none => false
          | some nm => POLLUTED_KEYWORDS.any (fun k => strHas k nm)

/-- On a body whose first item is polluted, the validation stage always throws
the pollution reason, whatever `errorReason` is pending. -/
theorem p1Validate_polluted (errR : Str) (d : Json) (hd : firstPolluted d = true) :
    p1Validate errR d = .caught reasonPolluted := by
  unfold firstPolluted at hd
  cases htr : jsTruthy d with
  | false =>
    simp only [htr, Bool.false_and] at hd
    exact Bool.noConfusion hd
  | true =>
    simp only [htr, Bool.true_and] at hd
    rcases hg : jsGet d "list".data with _ | lst
    · simp only [hg] at hd
      exact Bool.noConfusion hd
    · simp only [hg] at hd
      rcases hf : jsFirst lst with _ | item
      · simp only [hf, Bool.and_false] at hd
        exact Bool.noConfusion hd
      · simp only [hf] at hd
        rcases hn : sampleNameOf item with _ | nm
        · simp only [hn, Bool.and_false] at hd
          exact Bool.noConfusion hd
        · simp only [hn] at hd
          rw [Bool.and_eq_true, Bool.and_eq_true] at hd
          obtain ⟨⟨hlt, hlen⟩, hpol⟩ := hd
          have hlen' : ¬(jsLenStrict lst = some 0) := by
            intro hx
            rw [hx] at hlen
            simp at hlen
          unfold p1Validate
          simp [htr, hg, hlt, hlen', hf, hn, hpol]

/-- One retry step of `testSource` in which both GETs resolve with status 200
and validation throws. -/
theorem testSourceFrom_step (env : Nat → NetResp) (i : Nat) (errR msg : Str) (k : Nat)
    (pd d : Json)
    (h0 : env i = .ok 200 pd) (h1 : env (i + 1) = .ok 200 d)
    (hv : p1Validate errR d = .caught msg) :
    testSourceFrom env i errR (k + 1) =
      ((testSourceFrom env (i + 2) msg k).1, (testSourceFrom env (i + 2) msg k).2 + 2) := by
  conv_lhs => unfold testSourceFrom
  rw [h0]
  simp only [ne_eq, not_true_eq_false, if_false, reduceIte]
  rw [h1]
  simp only [hv]

/-- Counterexample to claim C6 as stated: the search yields a non-empty list
containing a polluted item (its second entry, display name "广告斗罗大陆",
contains the marker "广告"), yet `part_001` inspects only the first entry, so
the probe reports success — not POLLUTED with `reachable = false`. -/
theorem c6_counterexample :
    jsGet dataCleanFirst "list".data = some (.arr [cleanItem, dirtyItem]) ∧
    sampleNameOf dirtyItem = some "广告斗罗大陆".data ∧
    POLLUTED_KEYWORDS.any (fun k => strHas k "广告斗罗大陆".data) = true ∧
    testSource epEn (envPing dataCleanFirst) =
      ({success := true, reason := reasonNormal}, 2) := by
  exact ⟨rfl, rfl, rfl, rfl⟩

/-- Claim C6 as amended: pollution is detected on the FIRST search result
only.  When every search response's first item carries a configured pollution
marker in its display name (and connectivity succeeds), the probe fails with
the pollution reason after exhausting its retries. -/
theorem c6_amended (item : Endpoint) (d : Json) (pd : Nat → Json) (env : Nat → NetResp)
    (hd : firstPolluted d = true)
    (henv0 : ∀ j, env (2 * j) = .ok 200 (pd j))
    (henv1 : ∀ j, env (2 * j + 1) = .ok 200 d) :
    testSource item env = ({success := false, reason := reasonPolluted}, 2 * MAX_RETRY_p1) := by
  have h0 : env 0 = .ok 200 (pd 0) := by simpa using henv0 0
  have h1 : env 1 = .ok 200 d := by simpa using henv1 0
  have h2 : env 2 = .ok 200 (pd 1) := by simpa using henv0 1
  have h3 : env 3 = .ok 200 d := by simpa using henv1 1
  have hv0 := p1Validate_polluted [] d hd
  have hv1 := p1Validate_polluted reasonPolluted d hd
  show testSourceFrom env 0 [] (1 + 1) = _
  rw [testSourceFrom_step env 0 [] reasonPolluted 1 (pd 0) d h0 h1 hv0]
  rw [show (0 : Nat) + 2 = 2 from rfl]
  rw [show (1 : Nat) = 0 + 1 from rfl,
      testSourceFrom_step env 2 reasonPolluted reasonPolluted 0 (pd 1) d h2 h3 hv1]
  rfl

/-- Witness for `c6_amended` on a concrete endpoint and polluted body. -/
theorem c6_amended_witness :
    testSource epEn (envPing dataDirtyFirst) =
      ({success := false, reason := reasonPolluted}, 2 * MAX_RETRY_p1) :=
  c6_amended epEn dataDirtyFirst (fun _ => .null) (envPing dataDirtyFirst)
    (by decide)
    (fun j => by
      have hj : (2 * j) % 2 = 0 := by omega
      simp [envPing, hj])
    (fun j => by
      have hj : (2 * j + 1) % 2 = 1 := by omega
      simp [envPing, hj])

/-! ## Theorems for C10 -/

/-- Today's results of `check_api.js` (lines 94-101): one task per config
entry, in order; `envs j` is the network oracle seen by the j-th task. -/
def runTasks (kw : Str) (entries : List Endpoint) (envs : Nat → Nat → NetResp) (i : Nat) :
    List ResultRec :=
  match entries with
  | [] => []
  | e :: es => (task_check kw e (envs i)).1 :: runTasks kw es envs (i + 1)

/-- Positional correspondence of the produced daily results. -/
theorem runTasks_get? (kw : Str) (envs : Nat → Nat → NetResp) :
    ∀ (entries : List Endpoint) (i j : Nat),
      (runTasks kw entries envs i)[j]? =
        (entries[j]?).map (fun e => (task_check kw e (envs (i + j))).1) := by
  intro entries
  induction entries with
  | nil => intro i j; simp [runTasks]
  | cons e es ih =>
    intro i j
    cases j with
    | zero => simp [runTasks]
    | succ j =>
      simp only [runTasks, List.getElem?_cons_succ, ih (i + 1) j]
      have hx : i + 1 + j = i + (j + 1) := by omega
      rw [hx]

/-- Without overflow the `check_api.js` append is a plain append. -/
theorem appendHist_check_small (h : History) (day : DailyRecord)
    (hlen : h.length < MAX_DAYS) :
    appendHist_check h day = h ++ [day] := by
  unfold appendHist_check
  have : ¬ MAX_DAYS < (h ++ [day]).length := by simp; omega
  rw [if_neg this]

/-- The fail counter over an appended window. -/
theorem failCount_append (h : History) (day : DailyRecord) (a : Str) :
    failCount (h ++ [day]) a = failCount h a + failOf day a := by
  simp [failCount, List.map_append]

/-- A counterexample record: the daily outcome of a disabled endpoint. -/
def recFail : ResultRec := ⟨epDis.name, epDis.api, false, ssDisabled⟩

/-- A day whose only outcome is `recFail`. -/
def dayF : DailyRecord := ⟨"2026-01-01".data, [recFail]⟩

/-- A history window already at capacity, all failing for the endpoint. -/
def h30 : History := List.replicate 30 dayF

/-- Length of the produced daily results. -/
theorem runTasks_length (kw : Str) (envs : Nat → Nat → NetResp) :
    ∀ (entries : List Endpoint) (i : Nat),
      (runTasks kw entries envs i).length = entries.length := by
  intro entries
  induction entries with
  | nil => intro i; rfl
  | cons e es ih => intro i; simp [runTasks, ih (i + 1)]

/-- Counterexample to claim C10 as stated: once the window is at `MAX_DAYS`,
appending another failing day drops the oldest failing day, so neither the
in-window fail count nor the streak strictly increases. -/
theorem c10_counterexample :
    failCount (appendHist_check h30 dayF) epDis.api = failCount h30 epDis.api ∧
    streak_check (appendHist_check h30 dayF) epDis.api = streak_check h30 epDis.api := by
  exact ⟨by decide, by decide⟩

/-- Claim C10 as amended: each run produces exactly one outcome per configured
endpoint at the matching position, a disabled entry's outcome has
`success = false`, and appending a day whose record for the endpoint fails
strictly increases both the in-window fail count and the failure streak —
provided the window is still below `MAX_DAYS`; at capacity they can stay
constant (see the counterexample). -/
theorem c10_amended (kw : Str) (entries : List Endpoint) (envs : Nat → Nat → NetResp)
    (h : History) (day : DailyRecord) (a : Str) (r : ResultRec)
    (hfind : findRec day a = some r) (hfail : r.success = false)
    (hlen : h.length < MAX_DAYS) :
    (runTasks kw entries envs 0).length = entries.length ∧
    (∀ j : Nat, (runTasks kw entries envs 0)[j]? =
      (entries[j]?).map (fun e => (task_check kw e (envs j)).1)) ∧
    (∀ (j : Nat) (e : Endpoint), entries[j]? = some e → e.enabled = false →
      ((runTasks kw entries envs 0)[j]?).map (fun x : ResultRec => x.success) = some false) ∧
    failCount (appendHist_check h day) a = failCount h a + 1 ∧
    streak_check (appendHist_check h day) a = streak_check h a + 1 ∧
    streak_p0 (appendHist_check h day) a = streak_p0 h a + 1 := by
  have hget : ∀ j : Nat, (runTasks kw entries envs 0)[j]? =
      (entries[j]?).map (fun e => (task_check kw e (envs j)).1) := by
    intro j
    simpa using runTasks_get? kw envs entries 0 j
  have happ := appendHist_check_small h day hlen
  have hone : failOf day a = 1 := by simp [failOf, hfind, hfail]
  refine ⟨runTasks_length kw envs entries 0, hget, ?_, ?_, ?_, ?_⟩
  · intro j e hj he
    rw [hget j, hj]
    simp [task_check, he]
  · rw [happ, failCount_append, hone]
  · rw [happ]
    unfold streak_check
    rw [List.reverse_append]
    simp [streak_check, streakWalk_check, hfind, hfail]
  · rw [happ]
    unfold streak_p0
    rw [List.reverse_append]
    simp [streak_p0, streakWalk_p0, hfind, hfail]

/-- Witness for `c10_amended` at a concrete disabled endpoint, empty starting
window and all-rejecting network. -/
theorem c10_amended_witness :
    (runTasks kw0 [epDis] (fun _ => envErr) 0).length = [epDis].length ∧
    (∀ j : Nat, (runTasks kw0 [epDis] (fun _ => envErr) 0)[j]? =
      (([epDis])[j]?).map (fun e => (task_check kw0 e envErr).1)) ∧
    (∀ (j : Nat) (e : Endpoint), ([epDis])[j]? = some e → e.enabled = false →
      ((runTasks kw0 [epDis] (fun _ => envErr) 0)[j]?).map
        (fun x : ResultRec => x.success) = some false) ∧
    failCount (appendHist_check [] dayF) epDis.api = failCount [] epDis.api + 1 ∧
    streak_check (appendHist_check [] dayF) epDis.api = streak_check [] epDis.api + 1 ∧
    streak_p0 (appendHist_check [] dayF) epDis.api = streak_p0 [] epDis.api + 1 :=
  c10_amended kw0 [epDis] (fun _ => envErr) [] dayF epDis.api recFail rfl rfl (by decide)

/-! ## Scheduler (`queueRun`, `check_api.js` lines 75-88)

`queueRun` keeps `index` (next task to admit), `active` (in-flight tasks) and
`results` (indexed by task).  `next()` admits tasks while `active < limit`,
each completion stores `results[i]`, decrements `active` and calls `next()`
again; the promise resolves once `index >= tasks.length && active === 0`.

The state machine below transcribes this: `admitSched` is the `while` loop of
`next()`, a `SchedStep` is the completion callback of one in-flight task
(tasks never reject — the probe catches its own errors — so a completion
stores the task's value), and the order in which in-flight tasks complete is
arbitrary.  Task `i`'s value is `f i`. -/

structure SchedState (α : Type) where
  nextIdx : Nat
  running : List Nat
  results : List (Option α)
deriving Repr

/-- The admission loop of `next()`: admit while `active < limit` and tasks
remain; the fuel argument bounds the loop by the tasks not yet admitted. -/
def admitAux (limit n : Nat) : Nat → SchedState α → SchedState α
  | 0, s => s
  | fuel + 1, s =>
    if s.running.length < limit ∧ s.nextIdx < n then
      admitAux limit n fuel ⟨s.nextIdx + 1, s.running ++ [s.nextIdx], s.results⟩
    else s

/-- `next()`'s admission loop run to completion. -/
def admitSched (limit n : Nat) (s : SchedState α) : SchedState α :=
  admitAux limit n (n - s.nextIdx) s

/-- The scheduler state right after `queueRun` is entered. -/
def schedInit (limit n : Nat) (α : Type) : SchedState α :=
  admitSched limit n ⟨0, [], List.replicate n none⟩

/-- The completion callback of task `j`: store its result, free the slot and
re-run the admission loop. -/
def completeTask (limit n : Nat) (f : Nat → α) (j : Nat) (s : SchedState α) : SchedState α :=
  admitSched limit n ⟨s.nextIdx, s.running.erase j, s.results.set j (some (f j))⟩

/-- One scheduler transition: any in-flight task may complete next. -/
inductive SchedStep (limit n : Nat) (f : Nat → α) : SchedState α → SchedState α → Prop where
  | complete (j : Nat) (s : SchedState α) (hj : j ∈ s.running) :
      SchedStep limit n f s (completeTask limit n f j s)

/-- States reachable by the scheduler from its initial state. -/
def SchedReach (limit n : Nat) (f : Nat → α) (s : SchedState α) : Prop :=
  Relation.ReflTransGen (SchedStep limit n f) (schedInit limit n α) s

/-- The resolve condition `index >= tasks.length && active === 0`. -/
def SchedTerminal (n : Nat) (s : SchedState α) : Prop :=
  n ≤ s.nextIdx ∧ s.running = []

/-- Scheduler invariant: results has one slot per task, tasks are admitted in
order, in-flight tasks are admitted and distinct, every admitted task that is
no longer in flight has stored exactly its own value, and unadmitted slots
are still empty. -/
def SchedInv (n : Nat) (f : Nat → α) (s : SchedState α) : Prop :=
  s.results.length = n ∧
  s.nextIdx ≤ n ∧
  s.running.Nodup ∧
  (∀ j ∈ s.running, j < s.nextIdx) ∧
  (∀ i, i < s.nextIdx → i ∉ s.running → s.results[i]? = some (some (f i))) ∧
  (∀ i, s.nextIdx ≤ i → i < n → s.results[i]? = some none)

theorem schedInv_admitAux (limit n : Nat) (f : Nat → α) :
    ∀ (fuel : Nat) (s : SchedState α), SchedInv n f s →
      SchedInv n f (admitAux limit n fuel s) := by
  intro fuel
  induction fuel with
  | zero => intro s hs; exact hs
  | succ fuel ih =>
    intro s hs
    unfold admitAux
    by_cases hc : s.running.length < limit ∧ s.nextIdx < n
    · rw [if_pos hc]
      refine ih _ ?_
      obtain ⟨h1, h2, h3, h4, h5, h6⟩ := hs
      obtain ⟨hcl, hcn⟩ := hc
      unfold SchedInv
      dsimp only
      refine ⟨h1, by omega, ?_, ?_, ?_, ?_⟩
      · rw [List.nodup_append]
        refine ⟨h3, List.nodup_singleton _, ?_⟩
        intro x hx hx2
        have := h4 x hx
        simp only [List.mem_singleton] at hx2
        omega
      · intro j hj
        rcases List.mem_append.mp hj with hj | hj
        · have := h4 j hj; omega
        · simp only [List.mem_singleton] at hj; omega
      · intro i hi hni
        simp only [List.mem_append, List.mem_singleton, not_or] at hni
        obtain ⟨hni1, hni2⟩ := hni
        have hi' : i < s.nextIdx := by omega
        exact h5 i hi' hni1
      · intro i hi hin
        exact h6 i (by omega) hin
    · rw [if_neg hc]; exact hs

theorem schedInv_admit (limit n : Nat) (f : Nat → α) (s : SchedState α)
    (hs : SchedInv n f s) : SchedInv n f (admitSched limit n s) :=
  schedInv_admitAux limit n f _ s hs

theorem schedInv_init (limit n : Nat) (f : Nat → α) :
    SchedInv n f (schedInit limit n α) := by
  apply schedInv_admit
  unfold SchedInv
  dsimp only
  refine ⟨by simp, by omega, List.nodup_nil, ?_, ?_, ?_⟩
  · intro j hj
    exact absurd hj (List.not_mem_nil j)
  · intro i hi hni
    omega
  · intro i _ hi
    rw [List.getElem?_replicate, if_pos hi]

theorem schedInv_step (limit n : Nat) (f : Nat → α) (s t : SchedState α)
    (hst : SchedStep limit n f s t) (hs : SchedInv n f s) : SchedInv n f t := by
  rcases hst with ⟨j, s, hj⟩
  apply schedInv_admit
  obtain ⟨h1, h2, h3, h4, h5, h6⟩ := hs
  have hjn : j < s.nextIdx := h4 j hj
  unfold SchedInv
  dsimp only
  refine ⟨by simp [h1], h2, h3.erase j, ?_, ?_, ?_⟩
  · intro i hi
    exact h4 i (List.mem_of_mem_erase hi)
  · intro i hi hni
    by_cases hij : i = j
    · subst hij
      rw [List.getElem?_set_eq_of_lt _ (by omega)]
    · rw [List.getElem?_set_ne (fun h => hij h.symm)]
      refine h5 i hi ?_
      intro hmem
      exact hni ((h3.mem_erase_iff).mpr ⟨hij, hmem⟩)
  · intro i hi hin
    have hij : j ≠ i := by omega
    rw [List.getElem?_set_ne hij]
    exact h6 i hi hin

theorem schedInv_reach (limit n : Nat) (f : Nat → α) (s : SchedState α)
    (h : SchedReach limit n f s) : SchedInv n f s := by
  induction h with
  | refl => exact schedInv_init limit n f
  | tail _ hstep ih => exact schedInv_step limit n f _ _ hstep ih

/-- Claim C7: whatever the completion order of the in-flight probes, when the
scheduler resolves, it returns exactly one result per input task stored at the
task's own index — the value of that task — and it can only resolve once
every task has been admitted and completed; no task is dropped and no partial
result set is returned. -/
theorem queueRun_correct {α : Type} (limit n : Nat) (f : Nat → α) (s : SchedState α)
    (_hlim : 1 ≤ limit) (hreach : SchedReach limit n f s) (hterm : SchedTerminal n s) :
    s.results = (List.range n).map (fun i => some (f i)) := by
  obtain ⟨h1, _, _, _, h5, _⟩ := schedInv_reach limit n f s hreach
  obtain ⟨hn, hrun⟩ := hterm
  apply List.ext_getElem?
  intro i
  by_cases hi : i < n
  · rw [List.getElem?_map, List.getElem?_range hi]
    have : i ∉ s.running := by
      rw [hrun]
      exact List.not_mem_nil i
    rw [h5 i (by omega) this]
    rfl
  · have hx : s.results[i]? = none := by
      rw [List.getElem?_eq_none]
      omega
    have hy : ((List.range n).map (fun i => some (f i)))[i]? = none := by
      rw [List.getElem?_eq_none]
      simp
      omega
    rw [hx, hy]

/-- Witness for `queueRun_correct`: two tasks under concurrency limit 1,
completed in admission order. -/
theorem queueRun_correct_witness :
    (completeTask 1 2 (fun i => i) 1
        (completeTask 1 2 (fun i => i) 0 (schedInit 1 2 Nat))).results =
      (List.range 2).map (fun i => some ((fun i => i) i)) := by
  have step1 : SchedStep 1 2 (fun i => i) (schedInit 1 2 Nat)
      (completeTask 1 2 (fun i => i) 0 (schedInit 1 2 Nat)) :=
    SchedStep.complete 0 _ (by decide)
  have step2 : SchedStep 1 2 (fun i => i)
      (completeTask 1 2 (fun i => i) 0 (schedInit 1 2 Nat))
      (completeTask 1 2 (fun i => i) 1
        (completeTask 1 2 (fun i => i) 0 (schedInit 1 2 Nat))) :=
    SchedStep.complete 1 _ (by decide)
  exact queueRun_correct 1 2 (fun i => i) _ (by decide)
    (Relation.ReflTransGen.tail (Relation.ReflTransGen.tail Relation.ReflTransGen.refl step1)
      step2)
    ⟨by decide, by decide⟩

/-! ## The persisted history block (claims C8, C9)

`check_api.js` line 172 embeds `JSON.stringify(history, null, 2)` between a
"```json" fence and a closing fence inside the report; lines 34-40 recover it
with the regular expression /```json\n([\s\S]+?)\n```/ followed by
`JSON.parse`.  `JSON.parse` is modelled as a whitespace-tolerant
recursive-descent reader of full JSON: null, booleans, numbers, strings
(with the escape forms and the rejection of raw control characters),
arrays and objects. -/

/-- JSON whitespace. -/
def isWsChar (c : Char) : Bool := c = ' ' || c = '\n' || c = '\t' || c = '\r'

/-- Skip leading JSON whitespace. -/
def skipWs : Str → Str
  | [] => []
  | c :: cs => if isWsChar c then skipWs cs else c :: cs

/-- Value of one hex digit. -/
def hexVal (c : Char) : Option Nat :=
  if '0' ≤ c ∧ c ≤ '9' then some (c.toNat - 48)
  else if 'a' ≤ c ∧ c ≤ 'f' then some (c.toNat - 87)
  else if 'A' ≤ c ∧ c ≤ 'F' then some (c.toNat - 55)
  else none

/-- Inverse of the two-character escapes. -/
def unescChar (c : Char) : Option Char :=
  if c = '"' then some '"'
  else if c = '\\' then some '\\'
  else if c = '/' then some '/'
  else if c = 'n' then some '\n'
  else if c = 't' then some '\t'
  else if c = 'r' then some '\r'
  else if c = 'b' then some (Char.ofNat 8)
  else if c = 'f' then some (Char.ofNat 12)
  else none

/-- Read the body of a JSON string literal up to its closing quote, undoing
escapes; returns the decoded string and the remaining input. -/
def parseStrBody : Str → Option (Str × Str)
  | [] => none
  | c :: cs =>
    if c = '"' then some ([], cs)
    else if c = '\\' then
      match cs with
      | [] => none
      | e :: cs2 =>
        if e = 'u' then
          match cs2 with
          | a :: b :: c3 :: d :: cs3 =>
            match hexVal a, hexVal b, hexVal c3, hexVal d with
            | some x, some y, some z, some w =>
              (parseStrBody cs3).map
                (fun p => (Char.ofNat (((x * 16 + y) * 16 + z) * 16 + w) :: p.1, p.2))
            | _, _, _, _ => none
          | _ => none
        else
          match unescChar e with
          | some u => (parseStrBody cs2).map (fun p => (u :: p.1, p.2))
          | none => none
    else if c.toNat < 32 then none
    else (parseStrBody cs).map (fun p => (c :: p.1, p.2))

/-- Longest leading run of decimal digits. -/
def takeDigits : Str → (Str × Str)
  | [] => ([], [])
  | c :: cs =>
    if c.isDigit then
      match takeDigits cs with
      | (ds, r) => (c :: ds, r)
    else ([], c :: cs)

/-- Value of a digit run. -/
def digitsVal (ds : Str) : Nat := ds.foldl (fun a c => a * 10 + (c.toNat - 48)) 0

/-- The fraction part `(\.[0-9]+)?`: its digits and the remaining input. -/
def parseFrac : Str → Option (Str × Str)
  | '.' :: r =>
    (match takeDigits r with
     | ([], _) => none
     | (ds, r2) => some (ds, r2))
  | s => some ([], s)

/-- After `e`/`E`: an optional sign and one or more digits. -/
def parseExpPart (s : Str) : Option (Bool × Nat × Str) :=
  match s with
  | '+' :: r =>
    (match takeDigits r with
     | ([], _) => none
     | (ds, r2) => some (false, digitsVal ds, r2))
  | '-' :: r =>
    (match takeDigits r with
     | ([], _) => none
     | (ds, r2) => some (true, digitsVal ds, r2))
  | _ =>
    (match takeDigits s with
     | ([], _) => none
     | (ds, r2) => some (false, digitsVal ds, r2))

/-- The exponent part `([eE][+-]?[0-9]+)?`. -/
def parseExpTail : Str → Option (Bool × Nat × Str)
  | 'e' :: r => parseExpPart r
  | 'E' :: r => parseExpPart r
  | s => some (false, 0, s)

/-- An unsigned JSON number `(0|[1-9][0-9]*)(\.[0-9]+)?([eE][+-]?[0-9]+)?`
with its exact decimal value. -/
def parseNumBody (s : Str) : Option (Rat × Str) :=
  match s with
  | [] => none
  | c :: cs =>
    if c.isDigit then
      match (if c = '0' then (([] : Str), cs) else takeDigits cs) with
      | (ds, r1) =>
        match parseFrac r1 with
        | none => none
        | some (fds, r2) =>
          match parseExpTail r2 with
          | none => none
          | some (en, e, r3) =>
            let base : Rat := (digitsVal (c :: ds) : Rat)
              + (digitsVal fds : Rat) / (10 : Rat) ^ fds.length
            some ((if en then base / (10 : Rat) ^ e else base * (10 : Rat) ^ e), r3)
    else none

/-- The JSON number production of `JSON.parse`, with the optional sign. -/
def parseNum : Str → Option (Rat × Str)
  | '-' :: r => (parseNumBody r).map (fun p => (-p.1, p.2))
  | s => parseNumBody s

mutual
/-- Read one JSON value; the fuel bounds the nesting/iteration depth. -/
def parseV : Nat → Str → Option (Json × Str)
  | 0, _ => none
  | f + 1, s =>
    match skipWs s with
    | '"' :: r => (parseStrBody r).map (fun p => (Json.str p.1, p.2))
    | 't' :: 'r' :: 'u' :: 'e' :: r => some (.bool true, r)
    | 'f' :: 'a' :: 'l' :: 's' :: 'e' :: r => some (.bool false, r)
    | 'n' :: 'u' :: 'l' :: 'l' :: r => some (.null, r)
    | '[' :: r =>
      (match skipWs r with
       | ']' :: r2 => some (.arr [], r2)
       | _ => (parseItemsA f r).map (fun p => (Json.arr p.1, p.2)))
    | '{' :: r =>
      (match skipWs r with
       | '}' :: r2 => some (.obj [], r2)
       | _ => (parseItemsO f r).map (fun p => (Json.obj p.1, p.2)))
    | c :: r =>
      if c = '-' || c.isDigit then (parseNum (c :: r)).map (fun p => (Json.num p.1, p.2))
      else none
    | [] => none
/-- Read the comma-separated elements of a non-empty array up to `]`. -/
def parseItemsA : Nat → Str → Option (List Json × Str)
  | 0, _ => none
  | f + 1, s =>
    match parseV f s with
    | none => none
    | some (v, r) =>
      match skipWs r with
      | ',' :: r2 => (parseItemsA f r2).map (fun p => (v :: p.1, p.2))
      | ']' :: r2 => some ([v], r2)
      | _ => none
/-- Read the comma-separated fields of a non-empty object up to `}`. -/
def parseItemsO : Nat → Str → Option (List (Str × Json) × Str)
  | 0, _ => none
  | f + 1, s =>
    match skipWs s with
    | '"' :: r =>
      (match parseStrBody r with
       | none => none
       | some (k, r2) =>
         match skipWs r2 with
         | ':' :: r3 =>
           (match parseV f r3 with
            | none => none
            | some (v, r4) =>
              match skipWs r4 with
              | ',' :: r5 => (parseItemsO f r5).map (fun p => ((k, v) :: p.1, p.2))
              | '}' :: r5 => some ([(k, v)], r5)
              | _ => none)
         | _ => none)
    | _ => none
end

/-- `JSON.parse`: one value covering the whole input up to whitespace. -/
def parseJson (s : Str) : Option Json :=
  match parseV (s.length + 1) s with
  | some (v, rest) => if (skipWs rest).isEmpty then some v else none
  | none => none

/-! ## `JSON.stringify(history, null, 2)` -/

/-- Indentation at depth `d` (two spaces per level). -/
def ind (d : Nat) : Str := List.replicate (2 * d) ' '

/-- Boolean literals. -/
def printBoolJ : Bool → Str
  | true => "true".data
  | false => "false".data

/-- One `{ name, api, success, searchStatus }` record, as stringify prints it
at depth `d`. -/
def printRes (r : ResultRec) (d : Nat) : Str :=
  '{' :: ('\n' :: ind (d + 1) ++ qstr "name".data ++ ':' :: ' ' :: qstr r.name)
      ++ ',' :: ('\n' :: ind (d + 1) ++ qstr "api".data ++ ':' :: ' ' :: qstr r.api)
      ++ ',' :: ('\n' :: ind (d + 1) ++ qstr "success".data ++ ':' :: ' ' :: printBoolJ r.success)
      ++ ',' :: ('\n' :: ind (d + 1) ++ qstr "searchStatus".data ++ ':' :: ' ' :: qstr r.searchStatus)
      ++ '\n' :: ind d ++ ['}']

/-- The comma-separated result items, each on its own indented line. -/
def printResItems (d : Nat) : List ResultRec → Str
  | [] => []
  | [r] => '\n' :: ind d ++ printRes r d
  | r :: r2 :: rest => '\n' :: ind d ++ printRes r d ++ ',' :: printResItems d (r2 :: rest)

/-- A results array at depth `d`. -/
def printResList (rs : List ResultRec) (d : Nat) : Str :=
  match rs with
  | [] => "[]".data
  | _ :: _ => '[' :: printResItems (d + 1) rs ++ '\n' :: ind d ++ [']']

/-- One `{ date, results }` record at depth `d`. -/
def printDay (day : DailyRecord) (d : Nat) : Str :=
  '{' :: ('\n' :: ind (d + 1) ++ qstr "date".data ++ ':' :: ' ' :: qstr day.date)
      ++ ',' :: ('\n' :: ind (d + 1) ++ qstr "results".data ++ ':' :: ' ' :: printResList day.results (d + 1))
      ++ '\n' :: ind d ++ ['}']

/-- The comma-separated day items. -/
def printDayItems (d : Nat) : List DailyRecord → Str
  | [] => []
  | [day] => '\n' :: ind d ++ printDay day d
  | day :: day2 :: rest => '\n' :: ind d ++ printDay day d ++ ',' :: printDayItems d (day2 :: rest)

/-- `JSON.stringify(history, null, 2)`. -/
def printHistory (h : History) : Str :=
  match h with
  | [] => "[]".data
  | _ :: _ => '[' :: printDayItems 1 h ++ '\n' :: [']']

/-! ## The JSON value a history denotes, and its decoding -/

/-- The JSON object of one result record (insertion order of
`check_api.js` line 98). -/
def encodeRes (r : ResultRec) : Json :=
  .obj [("name".data, .str r.name), ("api".data, .str r.api),
        ("success".data, .bool r.success), ("searchStatus".data, .str r.searchStatus)]

/-- The JSON object of one daily record (insertion order of line 102). -/
def encodeDay (day : DailyRecord) : Json :=
  .obj [("date".data, .str day.date), ("results".data, .arr (day.results.map encodeRes))]

/-- The JSON value of a history. -/
def encodeHistory (h : History) : Json := .arr (h.map encodeDay)

/-- Option-valued map over a list, failing if any element fails. -/
def mapOpt (f : α → Option β) : List α → Option (List β)
  | [] => some []
  | x :: xs =>
    match f x with
    | none => none
    | some y => (mapOpt f xs).map (y :: ·)

/-- Read one result record back from its JSON object; this is the shape the
stats loop of `check_api.js` (lines 110-133) relies on. -/
def decodeRes : Json → Option ResultRec
  | .obj [(k1, .str nm), (k2, .str ap), (k3, .bool sc), (k4, .str ss)] =>
    if k1 = "name".data ∧ k2 = "api".data ∧ k3 = "success".data ∧ k4 = "searchStatus".data then
      some ⟨nm, ap, sc, ss⟩
    else none
  | _ => none

/-- Read one daily record back from its JSON object. -/
def decodeDay : Json → Option DailyRecord
  | .obj [(k1, .str dt), (k2, .arr rs)] =>
    if k1 = "date".data ∧ k2 = "results".data then
      (mapOpt decodeRes rs).map (fun res => ⟨dt, res⟩)
    else none
  | _ => none

/-- Read a history back from its JSON value. -/
def decodeHistory : Json → Option History
  | .arr ds => mapOpt decodeDay ds
  | _ => none

theorem decodeRes_encodeRes (r : ResultRec) : decodeRes (encodeRes r) = some r := by
  simp [decodeRes, encodeRes]

theorem decodeDay_encodeDay (day : DailyRecord) : decodeDay (encodeDay day) = some day := by
  unfold decodeDay encodeDay
  have hmap : ∀ rs : List ResultRec, mapOpt decodeRes (rs.map encodeRes) = some rs := by
    intro rs
    induction rs with
    | nil => rfl
    | cons r rest ih => simp [mapOpt, decodeRes_encodeRes, ih]
  simp [hmap]

theorem decodeHistory_encodeHistory (h : History) :
    decodeHistory (encodeHistory h) = some h := by
  have hmap : ∀ ds : History, mapOpt decodeDay (ds.map encodeDay) = some ds := by
    intro ds
    induction ds with
    | nil => rfl
    | cons day rest ih => simp [mapOpt, decodeDay_encodeDay, ih]
  simp [decodeHistory, encodeHistory, hmap]

/-! ## Round-trip lemmas: strings -/

theorem hexVal_hexDigit (n : Nat) (hn : n < 16) : hexVal (hexDigit n) = some n := by
  interval_cases n <;> decide

theorem parseStr_esc : ∀ (s rest : Str),
    parseStrBody (escStr s ++ '"' :: rest) = some (s, rest) := by
  intro s
  induction s with
  | nil =>
    intro rest
    show parseStrBody ('"' :: rest) = some ([], rest)
    rw [parseStrBody.eq_def]
    simp
  | cons c cs ih =>
    intro rest
    show parseStrBody ((escChar c ++ escStr cs) ++ '"' :: rest) = _
    rw [List.append_assoc]
    unfold escChar
    split_ifs with h1 h2 h3 h4 h5 h6 h7 h8
    · subst h1
      simp only [List.cons_append, List.nil_append]
      rw [parseStrBody.eq_def]
      simp [unescChar, ih rest]
    · subst h2
      simp only [List.cons_append, List.nil_append]
      rw [parseStrBody.eq_def]
      simp [unescChar, ih rest]
    · subst h3
      simp only [List.cons_append, List.nil_append]
      rw [parseStrBody.eq_def]
      simp [unescChar, ih rest]
    · subst h4
      simp only [List.cons_append, List.nil_append]
      rw [parseStrBody.eq_def]
      simp [unescChar, ih rest]
    · subst h5
      simp only [List.cons_append, List.nil_append]
      rw [parseStrBody.eq_def]
      simp [unescChar, ih rest]
    · subst h6
      simp only [List.cons_append, List.nil_append]
      rw [parseStrBody.eq_def]
      simp [unescChar, ih rest]
    · subst h7
      simp only [List.cons_append, List.nil_append]
      rw [parseStrBody.eq_def]
      simp [unescChar, ih rest]
    · have hd1 : c.toNat / 16 < 16 := by omega
      have hd2 : c.toNat % 16 < 16 := by omega
      have h0 : hexVal '0' = some 0 := by decide
      have harith : ((0 * 16 + 0) * 16 + c.toNat / 16) * 16 + c.toNat % 16 = c.toNat := by
        omega
      simp only [List.cons_append, List.nil_append]
      rw [parseStrBody.eq_def]
      simp only [h0, hexVal_hexDigit _ hd1, hexVal_hexDigit _ hd2, ih rest]
      have harith2 : c.toNat / 16 * 16 + c.toNat % 16 = c.toNat := by omega
      simp [harith2, Char.ofNat_toNat]
    · simp only [List.cons_append, List.nil_append]
      rw [parseStrBody.eq_def]
      simp only
      rw [if_neg h1, if_neg h2, if_neg h8, ih rest]
      rfl

/-! ## Round-trip lemmas: whitespace -/

theorem skipWs_cons_ws (c : Char) (s : Str) (h : isWsChar c = true) :
    skipWs (c :: s) = skipWs s := by
  simp [skipWs, h]

theorem skipWs_cons_nws (c : Char) (s : Str) (h : isWsChar c = false) :
    skipWs (c :: s) = c :: s := by
  simp [skipWs, h]

theorem skipWs_ind_append (k : Nat) (s : Str) : skipWs (ind k ++ s) = skipWs s := by
  unfold ind
  induction (2 * k) with
  | zero => rfl
  | succ m ih => simpa [List.replicate_succ, skipWs] using ih

theorem skipWs_idem (s : Str) : skipWs (skipWs s) = skipWs s := by
  induction s with
  | nil => rfl
  | cons c cs ih =>
    by_cases h : isWsChar c = true
    · rw [skipWs_cons_ws c cs h]; exact ih
    · rw [skipWs_cons_nws c cs (by simpa using h), skipWs_cons_nws c cs (by simpa using h)]

theorem parseV_skip (f : Nat) (s : Str) : parseV (f + 1) s = parseV (f + 1) (skipWs s) := by
  conv_lhs => rw [parseV.eq_def]
  conv_rhs => rw [parseV.eq_def]
  simp only
  rw [skipWs_idem]

theorem skipWs_line (d : Nat) (X : Str) : skipWs ('\n' :: (ind d ++ X)) = skipWs X := by
  rw [skipWs_cons_ws _ _ (by decide), skipWs_ind_append]

theorem parseV_cons_sp (g : Nat) (X : Str) :
    parseV (g + 1) (' ' :: X) = parseV (g + 1) X := by
  rw [parseV_skip g (' ' :: X), skipWs_cons_ws _ _ (by decide), ← parseV_skip g X]

theorem parseV_qstr (f : Nat) (s rest : Str) :
    parseV (f + 1) (qstr s ++ rest) = some (.str s, rest) := by
  have hq : qstr s ++ rest = '"' :: (escStr s ++ '"' :: rest) := by simp [qstr]
  rw [parseV.eq_def]
  simp only
  rw [hq, skipWs_cons_nws _ _ (by decide)]
  simp only
  rw [parseStr_esc]
  rfl

theorem parseV_boolJ (f : Nat) (b : Bool) (rest : Str) :
    parseV (f + 1) (printBoolJ b ++ rest) = some (.bool b, rest) := by
  cases b
  · show parseV (f + 1) ('f' :: 'a' :: 'l' :: 's' :: 'e' :: rest) = _
    rw [parseV.eq_def]
    simp only
    rw [skipWs_cons_nws _ _ (by decide)]
    rfl
  · show parseV (f + 1) ('t' :: 'r' :: 'u' :: 'e' :: rest) = _
    rw [parseV.eq_def]
    simp only
    rw [skipWs_cons_nws _ _ (by decide)]
    rfl

theorem parseV_fuel_pos (f : Nat) (s rest : Str) (v : Json)
    (hv : parseV f (s ++ rest) = some (v, rest)) : 1 ≤ f := by
  cases f with
  | zero => exact absurd hv (by simp [parseV])
  | succ f => omega

theorem skipWs_quote (X : Str) : skipWs ('"' :: X) = '"' :: X :=
  skipWs_cons_nws _ _ (by decide)

theorem skipWs_colon (X : Str) : skipWs (':' :: X) = ':' :: X :=
  skipWs_cons_nws _ _ (by decide)

theorem skipWs_comma (X : Str) : skipWs (',' :: X) = ',' :: X :=
  skipWs_cons_nws _ _ (by decide)

theorem skipWs_lbrace (X : Str) : skipWs ('{' :: X) = '{' :: X :=
  skipWs_cons_nws _ _ (by decide)

theorem skipWs_rbrace (X : Str) : skipWs ('}' :: X) = '}' :: X :=
  skipWs_cons_nws _ _ (by decide)

theorem skipWs_lbrack (X : Str) : skipWs ('[' :: X) = '[' :: X :=
  skipWs_cons_nws _ _ (by decide)

theorem skipWs_rbrack (X : Str) : skipWs (']' :: X) = ']' :: X :=
  skipWs_cons_nws _ _ (by decide)

/-- One non-final object field: key, colon, space, value, comma. -/
theorem parseItemsO_step (f d : Nat) (k vtxt : Str) (vjson : Json) (cont : Str)
    (hv : ∀ rest', parseV f (vtxt ++ rest') = some (vjson, rest')) :
    parseItemsO (f + 1) ('\n' :: (ind d ++ qstr k ++ ':' :: ' ' :: vtxt ++ ',' :: cont))
      = (parseItemsO f cont).map (fun p => ((k, vjson) :: p.1, p.2)) := by
  obtain ⟨g, rfl⟩ : ∃ g, f = g + 1 :=
    ⟨f - 1, by have := parseV_fuel_pos f vtxt (',' :: cont) vjson (hv _); omega⟩
  rw [parseItemsO.eq_def]
  simp only [qstr, List.cons_append, List.append_assoc, List.nil_append, skipWs_line,
    skipWs_quote, skipWs_colon, skipWs_comma, parseStr_esc, parseV_cons_sp, hv]

/-- The final object field: key, colon, space, value, newline, indent, brace. -/
theorem parseItemsO_last (f d dc : Nat) (k vtxt : Str) (vjson : Json) (rest : Str)
    (hv : ∀ rest', parseV f (vtxt ++ rest') = some (vjson, rest')) :
    parseItemsO (f + 1)
        ('\n' :: (ind d ++ qstr k ++ ':' :: ' ' :: vtxt ++ '\n' :: (ind dc ++ '}' :: rest)))
      = some ([(k, vjson)], rest) := by
  obtain ⟨g, rfl⟩ : ∃ g, f = g + 1 :=
    ⟨f - 1, by
      have := parseV_fuel_pos f vtxt ('\n' :: (ind dc ++ '}' :: rest)) vjson (hv _); omega⟩
  rw [parseItemsO.eq_def]
  simp only [qstr, List.cons_append, List.append_assoc, List.nil_append, skipWs_line,
    skipWs_quote, skipWs_colon, skipWs_rbrace, parseStr_esc, parseV_cons_sp, hv]

theorem parseV_qstrU (f : Nat) (s rest : Str) :
    parseV (f + 1) ('"' :: (escStr s ++ '"' :: rest)) = some (.str s, rest) := by
  have h := parseV_qstr f s rest
  rwa [show qstr s ++ rest = '"' :: (escStr s ++ '"' :: rest) by simp [qstr]] at h

theorem parseV_line (f d : Nat) (X : Str) :
    parseV (f + 1) ('\n' :: (ind d ++ X)) = parseV (f + 1) X := by
  rw [parseV_skip, skipWs_cons_ws _ _ (by decide), skipWs_ind_append, ← parseV_skip]

/-- Parsing back one printed result record. -/
theorem parseRes_val (r : ResultRec) (d : Nat) (f : Nat) (hf : 5 ≤ f) (rest : Str) :
    parseV (f + 1) (printRes r d ++ rest) = some (encodeRes r, rest) := by
  obtain ⟨g, rfl⟩ : ∃ g, f = g + 5 := ⟨f - 5, by omega⟩
  have hn : ∀ rest', parseV (g + 4) ('"' :: (escStr r.name ++ '"' :: rest'))
      = some (.str r.name, rest') := fun rest' => parseV_qstrU (g + 3) r.name rest'
  have ha : ∀ rest', parseV (g + 3) ('"' :: (escStr r.api ++ '"' :: rest'))
      = some (.str r.api, rest') := fun rest' => parseV_qstrU (g + 2) r.api rest'
  have hb : ∀ rest', parseV (g + 2) (printBoolJ r.success ++ rest')
      = some (.bool r.success, rest') := fun rest' => parseV_boolJ (g + 1) r.success rest'
  have hs : ∀ rest', parseV (g + 1) ('"' :: (escStr r.searchStatus ++ '"' :: rest'))
      = some (.str r.searchStatus, rest') := fun rest' => parseV_qstrU g r.searchStatus rest'
  rw [parseV.eq_def]
  simp only [printRes, qstr, List.cons_append, List.append_assoc, List.nil_append,
    skipWs_lbrace, skipWs_line, skipWs_quote]
  rw [parseItemsO.eq_def]
  simp only [List.cons_append, List.append_assoc, List.nil_append, skipWs_line, skipWs_quote,
    skipWs_colon, skipWs_comma, parseStr_esc, parseV_cons_sp, hn]
  rw [parseItemsO.eq_def]
  simp only [List.cons_append, List.append_assoc, List.nil_append, skipWs_line, skipWs_quote,
    skipWs_colon, skipWs_comma, parseStr_esc, parseV_cons_sp, ha]
  rw [parseItemsO.eq_def]
  simp only [List.cons_append, List.append_assoc, List.nil_append, skipWs_line, skipWs_quote,
    skipWs_colon, skipWs_comma, parseStr_esc, parseV_cons_sp, hb]
  rw [parseItemsO.eq_def]
  simp only [List.cons_append, List.append_assoc, List.nil_append, skipWs_line, skipWs_quote,
    skipWs_colon, skipWs_rbrace, parseStr_esc, parseV_cons_sp, hs]
  simp [encodeRes]

/-- Parsing back the printed items of a non-empty result list. -/
theorem parseItemsA_res (dI dc : Nat) :
    ∀ (rs : List ResultRec) (f : Nat) (rest : Str), rs ≠ [] → rs.length + 6 ≤ f →
      parseItemsA f (printResItems dI rs ++ '\n' :: (ind dc ++ ']' :: rest))
        = some (rs.map encodeRes, rest) := by
  intro rs
  induction rs with
  | nil => intro f rest hne _; exact absurd rfl hne
  | cons r rs' ih =>
    intro f rest _ hf
    cases rs' with
    | nil =>
      obtain ⟨g, rfl⟩ : ∃ g, f = g + 7 :=
        ⟨f - 7, by have h1 : (r :: ([] : List ResultRec)).length = 1 := rfl; omega⟩
      rw [parseItemsA.eq_def]
      simp only [printResItems, List.cons_append, List.append_assoc, List.nil_append]
      rw [parseV_line (g + 5) dI _, parseRes_val r dI (g + 5) (by omega) _]
      simp only [skipWs_line, skipWs_rbrack]
      simp
    | cons r2 rs'' =>
      obtain ⟨k, rfl⟩ : ∃ k, f = k + 8 :=
        ⟨f - 8, by
          have h1 : (r :: r2 :: rs'').length = rs''.length + 2 := by simp
          omega⟩
      rw [parseItemsA.eq_def]
      simp only [printResItems, List.cons_append, List.append_assoc, List.nil_append]
      rw [parseV_line (k + 6) dI _, parseRes_val r dI (k + 6) (by omega) _]
      simp only [skipWs_comma]
      rw [ih (k + 7) rest (by simp)
        (by
          have h2 : (r2 :: rs'').length = rs''.length + 1 := by simp
          have h1 : (r :: r2 :: rs'').length = rs''.length + 2 := by simp
          omega)]
      simp

/-- Parsing back a printed result list. -/
theorem parseResList_val (rs : List ResultRec) (d : Nat) (f : Nat) (hf : rs.length + 6 ≤ f)
    (rest : Str) :
    parseV (f + 1) (printResList rs d ++ rest) = some (.arr (rs.map encodeRes), rest) := by
  cases rs with
  | nil =>
    rw [parseV.eq_def]
    simp only [printResList]
    rw [show ("[]".data ++ rest : Str) = '[' :: (']' :: rest) from rfl, skipWs_lbrack]
    simp only
    rw [skipWs_rbrack]
    split
    · rename_i r2 heq
      simp only [List.cons.injEq] at heq
      simp [heq.2]
    · rename_i hne
      exact absurd rfl (hne rest)
  | cons r rs' =>
    rw [parseV.eq_def]
    simp only [printResList, List.cons_append, List.append_assoc, List.nil_append,
      skipWs_lbrack]
    have hex : ∃ u, skipWs (printResItems (d + 1) (r :: rs') ++ '\n' :: (ind d ++ ']' :: rest))
        = '{' :: u := by
      cases rs' <;>
      · simp only [printResItems, printRes, List.cons_append, List.append_assoc,
          List.nil_append, skipWs_line, skipWs_lbrace]
        exact ⟨_, rfl⟩
    obtain ⟨u, hu⟩ := hex
    rw [hu]
    split
    · rename_i r2 heq
      simp at heq
    · rw [parseItemsA_res (d + 1) d (r :: rs') f rest (by simp) hf]
      rfl


theorem parseV_sp_any (f : Nat) (X : Str) : parseV f (' ' :: X) = parseV f X := by
  cases f with
  | zero => rfl
  | succ f => exact parseV_cons_sp f X

theorem parseV_line_any (f d : Nat) (X : Str) :
    parseV f ('\n' :: (ind d ++ X)) = parseV f X := by
  cases f with
  | zero => rfl
  | succ f => exact parseV_line f d X


theorem parseDay_val (day : DailyRecord) (d : Nat) (f : Nat)
    (hf : day.results.length + 9 ≤ f) (rest : Str) :
    parseV (f + 1) (printDay day d ++ rest) = some (encodeDay day, rest) := by
  obtain ⟨g, rfl⟩ : ∃ g, f = g + (day.results.length + 9) :=
    ⟨f - (day.results.length + 9), by omega⟩
  have hd1 : ∀ rest', parseV (g + (day.results.length + 8))
      ('"' :: (escStr day.date ++ '"' :: rest')) = some (.str day.date, rest') :=
    fun rest' => parseV_qstrU (g + (day.results.length + 7)) day.date rest'
  rw [parseV.eq_def]
  simp only [printDay, qstr, List.cons_append, List.append_assoc, List.nil_append,
    skipWs_lbrace, skipWs_line, skipWs_quote]
  rw [parseItemsO.eq_def]
  simp only [Nat.add_eq, List.cons_append, List.append_assoc, List.nil_append, skipWs_line,
    skipWs_quote, skipWs_colon, skipWs_comma, parseStr_esc, parseV_sp_any, hd1]
  have hd2 : ∀ rest', parseV (g + (day.results.length + 7))
      (printResList day.results (d + 1) ++ rest')
      = some (.arr (day.results.map encodeRes), rest') :=
    fun rest' =>
      parseResList_val day.results (d + 1) (g + (day.results.length + 6)) (by omega) rest'
  rw [parseItemsO.eq_def]
  simp only [Nat.add_eq, List.cons_append, List.append_assoc, List.nil_append, skipWs_line,
    skipWs_quote, skipWs_colon, skipWs_rbrace, parseStr_esc, parseV_sp_any, hd2]
  simp [encodeDay]

/-- Fuel needed by the reader for a printed history's day list. -/
def needDays (ds : History) : Nat := (ds.map (fun day => day.results.length + 11)).sum

/-- Parsing back the printed items of a non-empty day list. -/
theorem parseItemsA_day (dI dc : Nat) :
    ∀ (ds : History) (f : Nat) (rest : Str), ds ≠ [] → needDays ds ≤ f →
      parseItemsA f (printDayItems dI ds ++ '\n' :: (ind dc ++ ']' :: rest))
        = some (ds.map encodeDay, rest) := by
  intro ds
  induction ds with
  | nil => intro f rest hne _; exact absurd rfl hne
  | cons day ds' ih =>
    intro f rest _ hf
    rw [show needDays (day :: ds') = day.results.length + 11 + needDays ds' by
      simp [needDays]] at hf
    cases ds' with
    | nil =>
      obtain ⟨g, rfl⟩ : ∃ g, f = g + (day.results.length + 11) :=
        ⟨f - (day.results.length + 11), by simp [needDays] at hf ⊢; omega⟩
      have hday : ∀ rest', parseV (g + (day.results.length + 10))
          (printDay day dI ++ rest') = some (encodeDay day, rest') :=
        fun rest' => parseDay_val day dI (g + (day.results.length + 9)) (by omega) rest'
      rw [parseItemsA.eq_def]
      simp only [printDayItems, Nat.add_eq, List.cons_append, List.append_assoc,
        List.nil_append, parseV_line_any, hday, skipWs_line, skipWs_rbrack]
      simp
    | cons day2 ds'' =>
      obtain ⟨k, rfl⟩ : ∃ k, f = k + (day.results.length + 11) :=
        ⟨f - (day.results.length + 11), by
          have : 0 ≤ needDays (day2 :: ds'') := Nat.zero_le _
          omega⟩
      have hday : ∀ rest', parseV (k + (day.results.length + 10))
          (printDay day dI ++ rest') = some (encodeDay day, rest') :=
        fun rest' => parseDay_val day dI (k + (day.results.length + 9)) (by omega) rest'
      rw [parseItemsA.eq_def]
      simp only [printDayItems, Nat.add_eq, List.cons_append, List.append_assoc,
        List.nil_append, parseV_line_any, hday, skipWs_comma]
      rw [ih (k + (day.results.length + 10)) rest (by simp) (by omega)]
      simp

/-- Parsing back a full printed history. -/
theorem parseHistory_val (h : History) (f : Nat) (hf : needDays h + 1 ≤ f) (rest : Str) :
    parseV (f + 1) (printHistory h ++ rest) = some (encodeHistory h, rest) := by
  cases h with
  | nil =>
    rw [parseV.eq_def]
    simp only [printHistory]
    rw [show ("[]".data ++ rest : Str) = '[' :: (']' :: rest) from rfl, skipWs_lbrack]
    simp only
    rw [skipWs_rbrack]
    split
    · rename_i r2 heq
      simp only [List.cons.injEq] at heq
      simp [encodeHistory, heq.2]
    · rename_i hne
      exact absurd rfl (hne rest)
  | cons day ds' =>
    rw [parseV.eq_def]
    simp only [printHistory, List.cons_append, List.append_assoc, List.nil_append,
      skipWs_lbrack]
    have hex : ∃ u, skipWs (printDayItems 1 (day :: ds') ++ '\n' :: (']' :: rest))
        = '{' :: u := by
      cases ds' <;>
      · simp only [printDayItems, printDay, List.cons_append, List.append_assoc,
          List.nil_append, skipWs_line, skipWs_lbrace]
        exact ⟨_, rfl⟩
    obtain ⟨u, hu⟩ := hex
    rw [hu]
    split
    · rename_i r2 heq
      simp at heq
    · have hitems := parseItemsA_day 1 0 (day :: ds') f rest (by simp) (by omega)
      rw [show ('\n' :: (ind 0 ++ ']' :: rest) : Str) = '\n' :: (']' :: rest) from rfl] at hitems
      rw [hitems]
      rfl

/-! ## Fuel bound: the printed history is at least as long as the fuel the
reader needs, so `JSON.parse` with fuel `length + 1` succeeds. -/

theorem ind_len (k : Nat) : (ind k).length = 2 * k := by simp [ind]

theorem qstr_len (s : Str) : 2 ≤ (qstr s).length := by
  simp [qstr]

theorem printResItems_len (dI : Nat) : ∀ rs : List ResultRec,
    rs.length ≤ (printResItems dI rs).length := by
  intro rs
  induction rs with
  | nil => simp [printResItems]
  | cons r rs' ih =>
    cases rs' with
    | nil => simp [printResItems]
    | cons r2 rs'' =>
      simp only [printResItems, List.length_cons, List.length_append] at ih ⊢
      omega

theorem printResList_len (rs : List ResultRec) (d : Nat) :
    rs.length + 2 ≤ (printResList rs d).length := by
  cases rs with
  | nil => simp [printResList]
  | cons r rs' =>
    have := printResItems_len (d + 1) (r :: rs')
    simp only [printResList, List.length_cons, List.length_append] at this ⊢
    omega

theorem printDay_len (day : DailyRecord) (d : Nat) :
    day.results.length + 12 ≤ (printDay day d).length := by
  have h1 : (qstr "date".data).length = 6 := by decide
  have h2 : (qstr "results".data).length = 9 := by decide
  have h3 := printResList_len day.results (d + 1)
  have h4 := qstr_len day.date
  simp only [printDay, List.length_append, List.length_cons, h1, h2]
  omega

theorem printDayItems_len (dI : Nat) : ∀ ds : History, ds ≠ [] →
    needDays ds + 1 ≤ (printDayItems dI ds).length := by
  intro ds
  induction ds with
  | nil => intro hne; exact absurd rfl hne
  | cons day ds' ih =>
    intro _
    have hval := printDay_len day dI
    cases ds' with
    | nil =>
      simp only [printDayItems, needDays, List.map_cons, List.map_nil, List.sum_cons,
        List.sum_nil, List.length_cons, List.length_append]
      omega
    | cons day2 ds'' =>
      have hih := ih (by simp)
      simp only [printDayItems, needDays, List.map_cons, List.sum_cons, List.length_cons,
        List.length_append] at hih ⊢
      omega

theorem printHistory_fuel (h : History) : needDays h + 1 ≤ (printHistory h).length := by
  cases h with
  | nil => simp [printHistory, needDays]
  | cons day ds' =>
    have := printDayItems_len 1 (day :: ds') (by simp)
    simp only [printHistory, List.length_cons, List.length_append] at this ⊢
    omega

/-- `JSON.parse` recovers the JSON value of the printed history. -/
theorem parseJson_printHistory (h : History) :
    parseJson (printHistory h) = some (encodeHistory h) := by
  unfold parseJson
  obtain ⟨f, hlen⟩ : ∃ f, (printHistory h).length = f ∧ needDays h + 1 ≤ f :=
    ⟨(printHistory h).length, rfl, printHistory_fuel h⟩
  have hv := parseHistory_val h (printHistory h).length
    (by omega) []
  rw [List.append_nil] at hv
  rw [hv]
  simp [skipWs]

/-! ## The `/```json\n([\s\S]+?)\n```/` recovery of the history block
(`check_api.js` line 36) -/

/-- The backtick character. -/
def btick : Char := Char.ofNat 96

/-- The opening fence the regular expression looks for. -/
def fenceOpen : Str := "```json\n".data

/-- The closing delimiter of the non-greedy capture. -/
def fenceClose : Str := "\n```".data

/-- Strip an expected prefix. -/
def dropPre : Str → Str → Option Str
  | [], s => some s
  | _ :: _, [] => none
  | p :: ps, c :: cs => if p = c then dropPre ps cs else none

/-- The lazy capture `([\s\S]+?)` followed by the closing delimiter: the
shortest non-empty prefix after which the rest of the input starts with
`\n```† -/
def takeCap : Str → Option Str
  | [] => none
  | c :: cs =>
    match dropPre fenceClose cs with
    | some _ => some [c]
    | none => (takeCap cs).map (c :: ·)

/-- First match of the whole regular expression: at each position try the
opening fence followed by a lazily captured body and the closing delimiter,
advancing one character on failure. -/
def extractBlock : Str → Option Str
  | [] => none
  | c :: cs =>
    match dropPre fenceOpen (c :: cs) with
    | some rest =>
      (match takeCap rest with
       | some cap => some cap
       | none => extractBlock cs)
    | none => extractBlock cs

theorem dropPre_self (p : Str) : ∀ s, dropPre p (p ++ s) = some s := by
  induction p with
  | nil => intro s; rfl
  | cons c cs ih => intro s; simp [dropPre, ih]

theorem dropPre_open_ne (c : Char) (cs : Str) (hc : c ≠ btick) :
    dropPre fenceOpen (c :: cs) = none := by
  rw [show fenceOpen = btick :: "``json\n".data by decide]
  unfold dropPre
  rw [if_neg (fun he => hc he.symm)]

theorem extractBlock_skip : ∀ (pre t : Str), (∀ c ∈ pre, c ≠ btick) →
    extractBlock (pre ++ t) = extractBlock t := by
  intro pre
  induction pre with
  | nil => intro t _; rfl
  | cons c cs ih =>
    intro t hpre
    rw [List.cons_append, extractBlock.eq_def]
    simp only [dropPre_open_ne c (cs ++ t) (hpre c (by simp))]
    exact ih t (fun x hx => hpre x (by simp [hx]))

/-! ## No newline-backtick pairs in printed JSON

`nlOK s` holds when no `\n` in `s` is followed by a backtick and `s` does not
end in `\n`; under it the lazy capture stops exactly at the appended closing
fence. -/

def nlOK : Str → Bool
  | [] => true
  | [c] => !(c == '\n')
  | c :: d :: rest => !(c == '\n' && d == btick) && nlOK (d :: rest)

theorem nlOK_tail (c : Char) (cs : Str) (h : nlOK (c :: cs) = true) : nlOK cs = true := by
  cases cs with
  | nil => rfl
  | cons d ds =>
    have h2 : (!(c == '\n' && d == btick) && nlOK (d :: ds)) = true := h
    exact (Bool.and_eq_true .. ▸ h2).2

theorem nlOK_single (c : Char) (hc : c ≠ '\n') : nlOK [c] = true := by
  show (!(c == '\n')) = true
  simp [hc]

theorem nlOK_head_ne (c : Char) (cs : Str) (h : nlOK (c :: cs) = true) :
    c ≠ '\n' ∨ (∃ d ds, cs = d :: ds ∧ d ≠ btick) := by
  cases cs with
  | nil =>
    left
    intro hc
    rw [hc] at h
    exact absurd h (by decide)
  | cons d ds =>
    by_cases hc : c = '\n'
    · right
      refine ⟨d, ds, rfl, ?_⟩
      have h2 : (!(c == '\n' && d == btick) && nlOK (d :: ds)) = true := h
      have h1 := (Bool.and_eq_true .. ▸ h2).1
      intro hdb
      rw [hc, hdb] at h1
      simp at h1
    · exact Or.inl hc

theorem nlOK_cons_of (c : Char) (b : Str) (hc : c ≠ '\n') (hb : nlOK b = true) :
    nlOK (c :: b) = true := by
  cases b with
  | nil => exact nlOK_single c hc
  | cons d ds =>
    show (!(c == '\n' && d == btick) && nlOK (d :: ds)) = true
    simp [hc, hb]

theorem nlOK_append (a b : Str) (ha : nlOK a = true) (hb : nlOK b = true) :
    nlOK (a ++ b) = true := by
  induction a with
  | nil => exact hb
  | cons c cs ih =>
    have hcs := nlOK_tail c cs ha
    have hrec := ih hcs
    cases cs with
    | nil =>
      have hc : c ≠ '\n' := by
        intro hc
        rw [hc] at ha
        exact absurd ha (by decide)
      exact nlOK_cons_of c b hc hb
    | cons d ds =>
      have h2 : (!(c == '\n' && d == btick) && nlOK (d :: ds)) = true := ha
      have h1 := (Bool.and_eq_true .. ▸ h2).1
      show (!(c == '\n' && d == btick) && nlOK (d :: (ds ++ b))) = true
      rw [List.cons_append] at hrec
      simp only [Bool.and_eq_true]
      exact ⟨h1, hrec⟩

theorem nlOK_of_noNl : ∀ s : Str, '\n' ∉ s → nlOK s = true := by
  intro s
  induction s with
  | nil => intro _; rfl
  | cons c cs ih =>
    intro h
    have hc : c ≠ '\n' := fun hh => h (by simp [hh])
    exact nlOK_cons_of c cs hc (ih (fun hx => h (by simp [hx])))

theorem dropPre_close_ne (d : Char) (x : Str) (hd : d ≠ '\n') :
    dropPre fenceClose (d :: x) = none := by
  rw [show fenceClose = '\n' :: "```".data by decide]
  unfold dropPre
  rw [if_neg (fun he => hd he.symm)]

theorem dropPre_close_ne2 (e : Char) (x : Str) (he : e ≠ btick) :
    dropPre fenceClose ('\n' :: e :: x) = none := by
  rw [show fenceClose = '\n' :: btick :: "``".data by decide]
  unfold dropPre
  rw [if_pos rfl]
  unfold dropPre
  rw [if_neg (fun hb => he hb.symm)]

/-- Under `nlOK`, the lazy capture of the history-block regular expression
stops exactly at the appended closing fence. -/
theorem takeCap_exact : ∀ (body tail : Str), nlOK body = true → body ≠ [] →
    takeCap (body ++ (fenceClose ++ tail)) = some body := by
  intro body
  induction body with
  | nil => intro tail _ hne; exact absurd rfl hne
  | cons c cs ih =>
    intro tail hok _
    rw [List.cons_append, takeCap.eq_def]
    cases cs with
    | nil =>
      simp only [List.nil_append, dropPre_self]
    | cons d ds =>
      have hdd := nlOK_tail c (d :: ds) hok
      have hnone : dropPre fenceClose ((d :: ds) ++ (fenceClose ++ tail)) = none := by
        rcases nlOK_head_ne d ds hdd with hd | ⟨e, ds', heq, he⟩
        · rw [List.cons_append]
          exact dropPre_close_ne d _ hd
        · subst heq
          by_cases hd : d = '\n'
          · subst hd
            rw [List.cons_append, List.cons_append]
            exact dropPre_close_ne2 e _ he
          · rw [List.cons_append]
            exact dropPre_close_ne d _ hd
      simp only [hnone]
      rw [ih tail hdd (by simp)]
      rfl

theorem hexDigit_ne_nl (n : Nat) (hn : n < 16) : hexDigit n ≠ '\n' := by
  interval_cases n <;> decide

theorem nl_not_in_escChar (c : Char) : '\n' ∉ escChar c := by
  unfold escChar
  split_ifs with h1 h2 h3 h4 h5 h6 h7 h8
  · decide
  · decide
  · decide
  · decide
  · decide
  · decide
  · decide
  · intro hmem
    have hd1 : c.toNat / 16 < 16 := by omega
    have hd2 : c.toNat % 16 < 16 := by omega
    simp only [List.mem_cons, List.not_mem_nil, or_false] at hmem
    rcases hmem with h | h | h | h | h | h
    · exact absurd h.symm (by decide)
    · exact absurd h.symm (by decide)
    · exact absurd h.symm (by decide)
    · exact absurd h.symm (by decide)
    · exact absurd h (hexDigit_ne_nl _ hd1).symm
    · exact absurd h (hexDigit_ne_nl _ hd2).symm
  · intro hmem
    simp only [List.mem_singleton] at hmem
    rw [← hmem] at h8
    exact h8 (by decide)

theorem nl_not_in_escStr (s : Str) : '\n' ∉ escStr s := by
  induction s with
  | nil => simp [escStr]
  | cons c cs ih =>
    unfold escStr
    intro hmem
    rcases List.mem_append.mp hmem with h | h
    · exact nl_not_in_escChar c h
    · exact ih h

theorem nlOK_qstr (s : Str) : nlOK (qstr s) = true := by
  apply nlOK_of_noNl
  intro hmem
  unfold qstr at hmem
  rcases List.mem_cons.mp hmem with h | h
  · exact absurd h (by decide)
  · rcases List.mem_append.mp h with h2 | h2
    · exact nl_not_in_escStr s h2
    · simp at h2

theorem nlOK_printBoolJ (b : Bool) : nlOK (printBoolJ b) = true := by
  cases b <;> decide

theorem nlOK_spaces (X : Str) (hX : nlOK X = true) :
    ∀ k, nlOK (List.replicate k ' ' ++ X) = true := by
  intro k
  induction k with
  | zero => simpa using hX
  | succ k ih =>
    rw [List.replicate_succ, List.cons_append]
    exact nlOK_cons_of ' ' _ (by decide) ih

theorem nlOK_nl_ind (d : Nat) (c : Char) (cs : Str) (hc : c ≠ btick)
    (hX : nlOK (c :: cs) = true) : nlOK ('\n' :: (ind d ++ (c :: cs))) = true := by
  unfold ind
  cases hm : 2 * d with
  | zero =>
    rw [List.replicate_zero, List.nil_append]
    show (!('\n' == '\n' && c == btick) && nlOK (c :: cs)) = true
    simp [hc, hX]
  | succ m =>
    rw [List.replicate_succ, List.cons_append]
    show (!('\n' == '\n' && ' ' == btick) && nlOK (' ' :: (List.replicate m ' ' ++ (c :: cs)))) = true
    have h2 := nlOK_cons_of ' ' _ (by decide) (nlOK_spaces (c :: cs) hX m)
    have h3 : ¬(' ' = btick) := by decide
    simp [h2, h3]

theorem qstr_cons (k : Str) : qstr k = '"' :: (escStr k ++ ['"']) := by
  simp [qstr]

theorem nlOK_qstrU (k : Str) : nlOK ('"' :: (escStr k ++ ['"'])) = true := by
  have h := nlOK_qstr k
  rwa [qstr_cons] at h

theorem nlOK_field (d : Nat) (k : Str) (val : Str) (hval : nlOK val = true) :
    nlOK ('\n' :: ind d ++ qstr k ++ ':' :: ' ' :: val) = true := by
  refine nlOK_append _ _ ?_ ?_
  · rw [List.cons_append, qstr_cons]
    exact nlOK_nl_ind d '"' _ (by decide) (nlOK_qstrU k)
  · exact nlOK_cons_of ':' _ (by decide) (nlOK_cons_of ' ' _ (by decide) hval)

theorem nlOK_close (d : Nat) (c : Char) (hc : c ≠ btick) (hcn : c ≠ '\n') :
    nlOK ('\n' :: ind d ++ [c]) = true := by
  rw [List.cons_append]
  exact nlOK_nl_ind d c [] hc (nlOK_single c hcn)

theorem nlOK_printRes (r : ResultRec) (d : Nat) : nlOK (printRes r d) = true := by
  unfold printRes
  rw [List.append_assoc]
  refine nlOK_append _ _ (nlOK_append _ _ (nlOK_append _ _ (nlOK_append _ _ ?h1 ?h2) ?h3) ?h4)
    ?h5
  case h1 =>
    exact nlOK_cons_of '{' _ (by decide) (nlOK_field (d + 1) _ _ (nlOK_qstr r.name))
  case h2 =>
    exact nlOK_cons_of ',' _ (by decide) (nlOK_field (d + 1) _ _ (nlOK_qstr r.api))
  case h3 =>
    exact nlOK_cons_of ',' _ (by decide) (nlOK_field (d + 1) _ _ (nlOK_printBoolJ r.success))
  case h4 =>
    exact nlOK_cons_of ',' _ (by decide) (nlOK_field (d + 1) _ _ (nlOK_qstr r.searchStatus))
  case h5 =>
    exact nlOK_close d '}' (by decide) (by decide)

theorem printRes_cons (r : ResultRec) (d : Nat) : ∃ t, printRes r d = '{' :: t := by
  unfold printRes
  simp only [List.cons_append, List.append_assoc]
  exact ⟨_, rfl⟩

theorem nlOK_printResItems (d : Nat) : ∀ rs : List ResultRec,
    nlOK (printResItems d rs) = true := by
  intro rs
  induction rs with
  | nil => rfl
  | cons r rs' ih =>
    cases rs' with
    | nil =>
      show nlOK (('\n' :: ind d) ++ printRes r d) = true
      obtain ⟨t, ht⟩ := printRes_cons r d
      rw [List.cons_append, ht]
      exact nlOK_nl_ind d '{' t (by decide) (ht ▸ nlOK_printRes r d)
    | cons r2 rs'' =>
      show nlOK ((('\n' :: ind d) ++ printRes r d) ++ (',' :: printResItems d (r2 :: rs''))) = true
      refine nlOK_append _ _ ?_ ?_
      · obtain ⟨t, ht⟩ := printRes_cons r d
        rw [List.cons_append, ht]
        exact nlOK_nl_ind d '{' t (by decide) (ht ▸ nlOK_printRes r d)
      · exact nlOK_cons_of ',' _ (by decide) ih

theorem nlOK_printResList (rs : List ResultRec) (d : Nat) :
    nlOK (printResList rs d) = true := by
  cases rs with
  | nil => rfl
  | cons r rs' =>
    show nlOK ((('[' :: printResItems (d + 1) (r :: rs')) ++ ('\n' :: ind d)) ++ [']']) = true
    rw [List.append_assoc]
    refine nlOK_append _ _ ?_ ?_
    · exact nlOK_cons_of '[' _ (by decide) (nlOK_printResItems (d + 1) (r :: rs'))
    · exact nlOK_close d ']' (by decide) (by decide)

theorem nlOK_printDay (day : DailyRecord) (d : Nat) : nlOK (printDay day d) = true := by
  unfold printDay
  rw [List.append_assoc]
  refine nlOK_append _ _ (nlOK_append _ _ ?h1 ?h2) ?h3
  case h1 =>
    exact nlOK_cons_of '{' _ (by decide) (nlOK_field (d + 1) _ _ (nlOK_qstr day.date))
  case h2 =>
    exact nlOK_cons_of ',' _ (by decide)
      (nlOK_field (d + 1) _ _ (nlOK_printResList day.results (d + 1)))
  case h3 =>
    exact nlOK_close d '}' (by decide) (by decide)

theorem printDay_cons (day : DailyRecord) (d : Nat) : ∃ t, printDay day d = '{' :: t := by
  unfold printDay
  simp only [List.cons_append, List.append_assoc]
  exact ⟨_, rfl⟩

theorem nlOK_printDayItems (d : Nat) : ∀ ds : History,
    nlOK (printDayItems d ds) = true := by
  intro ds
  induction ds with
  | nil => rfl
  | cons day ds' ih =>
    cases ds' with
    | nil =>
      show nlOK (('\n' :: ind d) ++ printDay day d) = true
      obtain ⟨t, ht⟩ := printDay_cons day d
      rw [List.cons_append, ht]
      exact nlOK_nl_ind d '{' t (by decide) (ht ▸ nlOK_printDay day d)
    | cons day2 ds'' =>
      show nlOK ((('\n' :: ind d) ++ printDay day d) ++ (',' :: printDayItems d (day2 :: ds''))) = true
      refine nlOK_append _ _ ?_ ?_
      · obtain ⟨t, ht⟩ := printDay_cons day d
        rw [List.cons_append, ht]
        exact nlOK_nl_ind d '{' t (by decide) (ht ▸ nlOK_printDay day d)
      · exact nlOK_cons_of ',' _ (by decide) ih

theorem nlOK_printHistory (h : History) : nlOK (printHistory h) = true := by
  cases h with
  | nil => rfl
  | cons day ds' =>
    show nlOK (('[' :: printDayItems 1 (day :: ds')) ++ ('\n' :: [']'])) = true
    refine nlOK_append _ _ ?_ ?_
    · exact nlOK_cons_of '[' _ (by decide) (nlOK_printDayItems 1 (day :: ds'))
    · decide

theorem printHistory_ne_nil (h : History) : printHistory h ≠ [] := by
  cases h <;> simp [printHistory]

/-! ## The rendered report file (`check_api.js` line 172) and its recovery -/

/-- The fixed text between the statistics table and the opening fence. -/
def detailsPre : Str :=
  "\n<details>\n<summary>📜 点击展开查看历史检测数据 (JSON)</summary>\n\n".data

/-- The text that follows the serialized history: the closing fence with its
trailing newline and the closing tag. -/
def detailsTail : Str := "\n```\n".data ++ "</details>\n".data

/-- `reportFileContent`: the markdown body, the details header, the fenced
JSON serialization of the history, and the closing tags. -/
def renderFile (md : Str) (h : History) : Str :=
  md ++ detailsPre ++ fenceOpen ++ printHistory h ++ detailsTail

/-- The startup recovery pipeline of `check_api.js` lines 34-40 applied to a
present report file: find the fenced block, parse it, and read it as a
history. -/
def parseReportHistory (s : Str) : Option History :=
  match extractBlock s with
  | none => none
  | some cap =>
    match parseJson cap with
    | none => none
    | some v => decodeHistory v

theorem extractBlock_found (t cap : Str) (hc : takeCap t = some cap) :
    extractBlock (fenceOpen ++ t) = some cap := by
  have he : fenceOpen ++ t = btick :: ("``json\n".data ++ t) := by
    rw [show fenceOpen = btick :: "``json\n".data by decide, List.cons_append]
  have hd : dropPre fenceOpen (btick :: ("``json\n".data ++ t)) = some t := by
    rw [← he]; exact dropPre_self fenceOpen t
  rw [he, extractBlock.eq_def]
  simp only [hd, hc]

theorem extractBlock_renderFile (md : Str) (h : History)
    (hmd : ∀ c ∈ md, c ≠ btick) :
    extractBlock (renderFile md h) = some (printHistory h) := by
  unfold renderFile detailsTail
  simp only [List.append_assoc]
  rw [extractBlock_skip md _ hmd, extractBlock_skip detailsPre _ (by decide)]
  rw [show "\n```\n".data ++ "</details>\n".data
      = fenceClose ++ "\n</details>\n".data from rfl]
  exact extractBlock_found _ _
    (takeCap_exact (printHistory h) "\n</details>\n".data (nlOK_printHistory h)
      (printHistory_ne_nil h))

/-- Claim C8: rendering the report embeds the full history as a fenced JSON
block, and the startup recovery re-reads from the rendered document exactly
the same records in the same order, for any table text free of backticks. -/
theorem c8_roundtrip (md : Str) (h : History) (hmd : ∀ c ∈ md, c ≠ btick) :
    parseReportHistory (renderFile md h) = some h := by
  unfold parseReportHistory
  rw [extractBlock_renderFile md h hmd]
  show (match parseJson (printHistory h) with
        | none => none
        | some v => decodeHistory v) = some h
  rw [parseJson_printHistory h]
  exact decodeHistory_encodeHistory h

def mdSample : Str := "# Report\n".data

def histSample : History :=
  [⟨"2026-01-01".data, [⟨"A".data, "http://a".data, true, ssOK⟩]⟩]

/-- A concrete instance of the C8 round-trip. -/
theorem c8_roundtrip_witness :
    parseReportHistory (renderFile mdSample histSample) = some histSample :=
  c8_roundtrip mdSample histSample (by decide)

/-! ## Startup history initialization (`check_api.js` lines 33-40) -/

/-- The value bound to `history` at startup: the empty array when the report
file is absent, the fenced block is missing, or `JSON.parse` throws;
otherwise the parsed JSON value, whatever its shape. -/
def initHistoryRaw (report : Option Str) : Json :=
  match report with
  | none => .arr []
  | some s =>
    match extractBlock s with
    | none => .arr []
    | some cap =>
      match parseJson cap with
      | none => .arr []
      | some v => v

/-- `history.push(x)`: succeeds only when the receiver is an array; on any
other value the method is absent and a `TypeError` aborts the run. -/
def jsPush (h v : Json) : Option Json :=
  match h with
  | .arr xs => some (.arr (xs ++ [v]))
  | _ => none

/-- A report whose fenced block holds valid JSON that is not an array. -/
def repBool : Str := "```json\ntrue\n```".data

/-- The day record the engine pushes in the run used as the C9 input. -/
def day9 : DailyRecord := ⟨"2026-02-02".data, []⟩

/-- Counterexample to claim C9 as stated: a corrupt history block that is
still valid JSON (here `true`) is adopted as-is by the recovery, and the
later `history.push(...)` then raises a `TypeError`, terminating the run. -/
theorem c9_counterexample :
    initHistoryRaw (some repBool) = Json.bool true ∧
      jsPush (initHistoryRaw (some repBool)) (encodeDay day9) = none :=
  ⟨rfl, rfl⟩

/-- Claim C9 as amended: an absent report, a missing fenced block, or a
block `JSON.parse` rejects all yield the empty array, on which the later
`push` succeeds; only a parseable non-array block escapes this recovery. -/
theorem c9_amended (report : Option Str)
    (hbad : ∀ s cap, report = some s → extractBlock s = some cap →
      parseJson cap = none) :
    initHistoryRaw report = Json.arr [] ∧
      ∀ v, jsPush (initHistoryRaw report) v = some (Json.arr [v]) := by
  have h0 : initHistoryRaw report = Json.arr [] := by
    cases report with
    | none => rfl
    | some s =>
      show (match extractBlock s with
            | none => Json.arr []
            | some cap =>
              match parseJson cap with
              | none => Json.arr []
              | some v => v) = Json.arr []
      cases hx : extractBlock s with
      | none => rfl
      | some cap =>
        show (match parseJson cap with
              | none => Json.arr []
              | some v => v) = Json.arr []
        rw [hbad s cap rfl hx]
  refine ⟨h0, fun v => ?_⟩
  rw [h0]
  rfl

/-- A report whose fenced block is not JSON at all. -/
def repBad : Str := "```json\nx\n```".data

/-- A concrete instance of the amended C9 recovery. -/
theorem c9_amended_witness :
    initHistoryRaw (some repBad) = Json.arr [] ∧
      jsPush (initHistoryRaw (some repBad)) (encodeDay day9)
        = some (Json.arr [encodeDay day9]) := by
  have h := c9_amended (some repBad) (by
    intro s cap hs hx
    obtain rfl : repBad = s := Option.some.inj hs
    have h0 : extractBlock repBad = some ['x'] := rfl
    rw [h0] at hx
    obtain rfl : (['x'] : Str) = cap := Option.some.inj hx
    rfl)
  exact ⟨h.1, h.2 (encodeDay day9)⟩
